import Mathlib

/-!
Shallow embedding of the space-weather data widget
(`space_weather.py` and `app.py`): NOAA feed parsers, the payload
aggregator, the cache freshness policy, and the JSON cache round trip.

Conventions of the embedding:
* A table cell is abstracted by the outcome of Python `float()` on it:
  `Cell.val q` is a cell on which `float` returns the rational `q`
  (a JSON number or a numeric string); `Cell.txt s` is a cell on which
  `float` raises (`ValueError` on a non-numeric string, `TypeError` on
  `null`), carrying the raw content for use as a timestamp.
* Python machine floats are modelled as exact rationals; `round(x, n)`
  is modelled as exact round-half-to-even at `n` decimal digits.
* A fetched endpoint response is `Option _`; `none` is the `None` that
  `fetch_json` returns on failure.  Python truthiness of a list
  (`if raw:`) is `none` or `some []` falsy, `some (_ :: _)` truthy.
* List indexing `row[i]` inside a `try` block is `List.get?`; an
  out-of-range index is the caught `IndexError`.
-/

namespace Portfo

/-- A cell of a NOAA data row, abstracted by its Python `float()` outcome. -/
inductive Cell where
  | val (q : ℚ)
  | txt (s : String)
deriving DecidableEq

/-- Python `float(cell)` under the abstraction: `some` the numeric value,
`none` when `float` raises. -/
def cellFloat : Cell → Option ℚ
  | .val q => some q
  | .txt _ => none

/-- A NOAA data row: a list of cells. -/
abbrev Row := List Cell

/-- `float(row[i])` inside a `try`: `none` on `IndexError` or a failed
conversion. -/
def floatAt (row : Row) (i : ℕ) : Option ℚ :=
  (row.get? i).bind cellFloat

/-- Round-half-to-even to an integer, as Python `round` does. -/
def roundHalfEven (q : ℚ) : ℤ :=
  let f := ⌊q⌋
  let r := q - f
  if r < 1/2 then f
  else if 1/2 < r then f + 1
  else if f % 2 = 0 then f else f + 1

/-- Python `round(q, nd)` on the exact-rational model of floats. -/
def pyRound (nd : ℕ) (q : ℚ) : ℚ :=
  (roundHalfEven (q * 10 ^ nd) : ℚ) / 10 ^ nd

/-- Python truthiness of an optional list (`if raw:`). -/
def truthy : Option (List α) → Bool
  | some (_ :: _) => true
  | _ => false

/-! ## parse_solar_wind -/

/-- Result record of `parse_solar_wind`. -/
structure SolarWind where
  speed : Option ℚ
  density : Option ℚ
  bz : Option ℚ
  bt : Option ℚ
  timestamp : Option Cell
  timeseries : List (Cell × ℚ)
deriving DecidableEq

/-- The latest-reading loop of `parse_solar_wind`: iterate over the
already-reversed plasma rows, mutating `(density, speed, timestamp)`.
`density` is assigned before `speed` is converted, so a row whose density
parses but whose speed does not leaves a partial update behind
(the caught exception aborts the iteration body after the first
assignment), and the loop continues. The first row whose density and
speed both convert assigns all three fields and breaks. -/
def latestScan : List Row → Option ℚ → Option ℚ → Option Cell →
    Option ℚ × Option ℚ × Option Cell
  | [], d, s, t => (d, s, t)
  | row :: rest, d, s, t =>
    match floatAt row 1 with
    | none => latestScan rest d s t
    | some dv =>
      match floatAt row 2 with
      | none => latestScan rest (some (pyRound 1 dv)) s t
      | some sv => (some (pyRound 1 dv), some (pyRound 0 sv), row.get? 0)

/-- The magnetic-field loop of `parse_solar_wind` over reversed mag rows:
`bz` from `row[3]` is assigned before `bt` from `row[4]` is converted. -/
def magScan : List Row → Option ℚ → Option ℚ → Option ℚ × Option ℚ
  | [], z, t => (z, t)
  | row :: rest, z, t =>
    match floatAt row 3 with
    | none => magScan rest z t
    | some zv =>
      match floatAt row 4 with
      | none => magScan rest (some (pyRound 1 zv)) t
      | some tv => (some (pyRound 1 zv), some (pyRound 1 tv))

/-- The timeseries loop of `parse_solar_wind`: every row (in input order)
whose speed converts and is strictly positive contributes an entry
`(row[0], round(speed, 0))`; other rows are skipped. -/
def tsEntries (rows : List Row) : List (Cell × ℚ) :=
  rows.filterMap fun row =>
    match row.get? 0, floatAt row 2 with
    | some t, some spd => if 0 < spd then some (t, pyRound 0 spd) else none
    | _, _ => none

/-- Fuelled worker for `sliceStep`; the fuel is the input length, enough
because each step consumes at least one element. -/
def sliceRun (step : ℕ) : ℕ → List α → List α
  | _, [] => []
  | 0, _ :: _ => []
  | fuel + 1, x :: xs => x :: sliceRun step fuel (xs.drop (step - 1))

/-- Python extended slice `l[::step]` for `step ≥ 1`: keep the head, then
skip `step - 1` elements, and repeat. -/
def sliceStep (l : List α) (step : ℕ) : List α :=
  sliceRun step l.length l

/-- `parse_solar_wind` from `space_weather.py`: latest plasma reading,
thinned timeseries, latest mag reading. -/
def parse_solar_wind (plasma_raw mag_raw : Option (List Row)) : SolarWind :=
  let base : SolarWind := ⟨none, none, none, none, none, []⟩
  let r1 :=
    if truthy plasma_raw then
      let rows := (plasma_raw.getD []).tail
      let lt := latestScan rows.reverse none none none
      let ts0 := tsEntries rows
      let ts := if 60 < ts0.length then sliceStep ts0 (max 1 (ts0.length / 60)) else ts0
      { base with density := lt.1, speed := lt.2.1, timestamp := lt.2.2,
                  timeseries := ts }
    else base
  if truthy mag_raw then
    let mrows := (mag_raw.getD []).tail
    let mg := magScan mrows.reverse none none
    { r1 with bz := mg.1, bt := mg.2 }
  else r1

/-! ## parse_kp -/

/-- Result record of `parse_kp`. -/
structure KpOut where
  current : Option ℚ
  history : List (Cell × ℚ)
deriving DecidableEq

/-- The readings loop of `parse_kp`: rows whose `row[1]` converts become
`(row[0], kp)` entries, in input order; rows that raise are dropped
individually. -/
def kpReadings (rows : List Row) : List (Cell × ℚ) :=
  rows.filterMap fun row =>
    match row.get? 0, floatAt row 1 with
    | some t, some k => some (t, k)
    | _, _ => none

/-- `parse_kp` from `space_weather.py`. -/
def parse_kp (kp_raw : Option (List Row)) : KpOut :=
  match kp_raw with
  | none => ⟨none, []⟩
  | some rows0 =>
    if rows0.isEmpty then ⟨none, []⟩
    else
      let readings := kpReadings rows0.tail
      if readings.isEmpty then ⟨none, []⟩
      else ⟨(readings.getLast?).map (·.2), readings.drop (readings.length - 24)⟩

/-! ## parse_scales -/

/-- One raw scale entry (the dict under `G`/`S`/`R`): optionally present
`"Scale"` and `"Text"` string values. -/
structure ScaleEntryRaw where
  scaleV : Option String
  textV : Option String
deriving DecidableEq

/-- The raw `"0"` (current) period entry: optionally present `G`, `S`,
`R` sub-entries. -/
structure ScalesCurrent where
  gE : Option ScaleEntryRaw
  sE : Option ScaleEntryRaw
  rE : Option ScaleEntryRaw
deriving DecidableEq

/-- One output scale pair. -/
structure ScalePair where
  scale : String
  label : String
deriving DecidableEq

/-- Output record of `parse_scales`: exactly the keys `G`, `S`, `R`. -/
structure ScalesOut where
  G : ScalePair
  S : ScalePair
  R : ScalePair
deriving DecidableEq

/-- The per-key body of the `parse_scales` loop:
`entry = current.get(key, {})`, then `entry.get("Scale", key + "0")` and
`entry.get("Text", "None")`. -/
def scaleEntryOut (key : String) (e : Option ScaleEntryRaw) : ScalePair :=
  ⟨((e.getD ⟨none, none⟩).scaleV).getD (key ++ "0"),
   ((e.getD ⟨none, none⟩).textV).getD "None"⟩

/-- The initial (quiet) default of `parse_scales`. -/
def scalesQuiet : ScalesOut :=
  ⟨⟨"G0", "Quiet"⟩, ⟨"S0", "None"⟩, ⟨"R0", "None"⟩⟩

/-- `parse_scales` from `space_weather.py`; the raw response is a dict
keyed by lookback period, modelled as an association list. -/
def parse_scales (scales_raw : Option (List (String × ScalesCurrent))) : ScalesOut :=
  match scales_raw with
  | none => scalesQuiet
  | some ps =>
    if ps.isEmpty then scalesQuiet
    else
      let current := (ps.lookup "0").getD ⟨none, none, none⟩
      ⟨scaleEntryOut "G" current.gE, scaleEntryOut "S" current.sE,
       scaleEntryOut "R" current.rE⟩

/-! ## aurora_visibility -/

/-- Output record of `aurora_visibility`. -/
structure Aurora where
  label : String
  latitude : Option ℕ
deriving DecidableEq

/-- The fixed Kp → latitude table, in the source's descending order. -/
def auroraTable : List (ℕ × String) :=
  [(9, "Equatorial regions (< 40°)"),
   (8, "Mid-latitudes (< 45°)"),
   (7, "Mid-latitudes (< 50°)"),
   (6, "Mid-latitudes (< 55°)"),
   (5, "Mid-latitudes (< 60°)"),
   (4, "High latitudes (< 65°)"),
   (3, "High latitudes (< 65°)"),
   (2, "Sub-auroral zone (> 65°)"),
   (1, "Polar regions only (> 70°)"),
   (0, "Not visible")]

/-- The table loop of `aurora_visibility`: first row whose threshold is
`≤ kp` wins; falling off the end returns the "Not visible"/null record. -/
def auroraFind : List (ℕ × String) → ℚ → Aurora
  | [], _ => ⟨"Not visible", none⟩
  | (t, lbl) :: rest, q => if (t : ℚ) ≤ q then ⟨lbl, some t⟩ else auroraFind rest q

/-- `aurora_visibility` from `space_weather.py`. -/
def aurora_visibility (kp : Option ℚ) : Aurora :=
  match kp with
  | none => ⟨"Unknown", none⟩
  | some q => auroraFind auroraTable q

/-! ## String helpers for parse_alerts

Python string methods are modelled on the character list `String.data`:
`strip` removes leading and trailing whitespace, `startswith` is a
character-prefix test, `replace` rewrites all non-overlapping occurrences
left to right, and `splitlines` is modelled as splitting on `'\n'`. -/

/-- An ASCII whitespace character (the characters Python `strip` removes
on this data). -/
def isWsChar (c : Char) : Bool :=
  c == ' ' || c == '\t' || c == '\n' || c == '\r' || c == '\x0b' || c == '\x0c'

/-- Python `s.strip()`. -/
def pyStrip (s : String) : String :=
  ⟨((s.data.dropWhile isWsChar).reverse.dropWhile isWsChar).reverse⟩

/-- Python `s.startswith(p)`. -/
def pyStarts (s p : String) : Bool :=
  p.data.isPrefixOf s.data

/-- Fuelled worker for `pyReplace`; the fuel is the input length, enough
because each step consumes at least one character when the pattern is
nonempty. -/
def replRun (pat rep : List Char) : ℕ → List Char → List Char
  | 0, s => s
  | _ + 1, [] => []
  | fuel + 1, c :: rest =>
    if pat.isPrefixOf (c :: rest) then
      rep ++ replRun pat rep fuel ((c :: rest).drop pat.length)
    else c :: replRun pat rep fuel rest

/-- Python `s.replace(pat, rep)` for a nonempty pattern (the only use in
the source has the fixed nonempty pattern `"Potential Impacts:"`). -/
def pyReplace (s pat rep : String) : String :=
  if pat.data.isEmpty then s
  else ⟨replRun pat.data rep.data s.data.length s.data⟩

/-- Worker for `splitLines`, accumulating the current line reversed. -/
def splitLinesAux : List Char → List Char → List String
  | [], acc => [⟨acc.reverse⟩]
  | c :: rest, acc =>
    if c == '\n' then ⟨acc.reverse⟩ :: splitLinesAux rest []
    else splitLinesAux rest (c :: acc)

/-- Python `s.splitlines()`, modelled as splitting on newline characters. -/
def splitLines (s : String) : List String :=
  splitLinesAux s.data []

/-! ## parse_alerts -/

/-- One raw alert record: the fields read via `item.get(_, "")`. -/
structure AlertItem where
  message : Option String
  product_id : Option String
  issue_datetime : Option String
deriving DecidableEq

/-- One output alert record. -/
structure AlertOut where
  product_id : String
  issue_time : String
  headline : String
  impacts : String
deriving DecidableEq

/-- The fixed headline keyword list of `parse_alerts`. -/
def headKws : List String :=
  ["WARNING:", "ALERT:", "WATCH:", "SUMMARY:", "CONTINUED"]

/-- The fixed boilerplate keyword list of the `parse_alerts` fallback. -/
def boilerKws : List String :=
  ["Space Weather", "Serial", "Issue Time", "NOAA"]

/-- The headline test of `parse_alerts`: the stripped line starts with a
headline keyword. -/
def kwLine (l : String) : Bool :=
  headKws.any fun k => pyStarts l k

/-- The impacts test of `parse_alerts`: the stripped line starts with
`"Potential Impacts:"`. -/
def impLine (l : String) : Bool :=
  pyStarts l "Potential Impacts:"

/-- The impacts transformation of `parse_alerts`:
`line.replace("Potential Impacts:", "").strip()`. -/
def impStrip (l : String) : String :=
  pyStrip (pyReplace l "Potential Impacts:" "")

/-- The fallback test of `parse_alerts`: the stripped line is nonempty
and starts with no boilerplate keyword. -/
def fbLine (l : String) : Bool :=
  l != "" && !(boilerKws.any fun k => pyStarts l k)

/-- The main line loop of `parse_alerts`, carrying the mutable
`headline`/`impacts` strings: the headline is only assigned while still
empty (first keyword line wins); `impacts` is assigned on every
`"Potential Impacts:"` line (the last such line wins). -/
def alertScan : List String → String → String → String × String
  | [], h, imp => (h, imp)
  | l :: ls, h, imp =>
    let line := pyStrip l
    let h' := if h == "" && kwLine line then line else h
    let imp' := if impLine line then impStrip line else imp
    alertScan ls h' imp'

/-- The fallback loop of `parse_alerts`: first stripped line that is
nonempty and starts with no boilerplate keyword; otherwise `""`. -/
def alertFallback : List String → String
  | [] => ""
  | l :: ls =>
    let line := pyStrip l
    if fbLine line then line
    else alertFallback ls

/-- The per-item body of `parse_alerts`. -/
def mkAlert (item : AlertItem) : AlertOut :=
  let raw := item.message.getD ""
  let hi := alertScan (splitLines raw) "" ""
  let headline := if hi.1 == "" then alertFallback (splitLines raw) else hi.1
  ⟨item.product_id.getD "", item.issue_datetime.getD "", headline, hi.2⟩

/-- `parse_alerts` from `space_weather.py`. -/
def parse_alerts (alerts_raw : Option (List AlertItem)) : List AlertOut :=
  match alerts_raw with
  | none => []
  | some items =>
    if items.isEmpty then []
    else (items.take 5).map mkAlert

/-! ## fetch_all -/

/-- The root payload record assembled by `fetch_all`. -/
structure Payload where
  fetched_at : String
  solar_wind : SolarWind
  kp : KpOut
  scales : ScalesOut
  aurora : Aurora
  alerts : List AlertOut
deriving DecidableEq

/-- `fetch_all` from `space_weather.py`, with the five already-fetched
endpoint responses (each `none` on fetch failure) and the current UTC
timestamp string passed in explicitly. -/
def fetch_all (now : String) (plasma_raw mag_raw kp_raw : Option (List Row))
    (scales_raw : Option (List (String × ScalesCurrent)))
    (alerts_raw : Option (List AlertItem)) : Payload :=
  let solar_wind := parse_solar_wind plasma_raw mag_raw
  let kp := parse_kp kp_raw
  let scales := parse_scales scales_raw
  let alerts := parse_alerts alerts_raw
  let aurora := aurora_visibility kp.current
  ⟨now, solar_wind, kp, scales, aurora, alerts⟩

/-! ## cache_is_stale -/

/-- The `fetched_at` field of a cached payload, abstracted by the outcome
of reading and parsing it: `missing` is the caught `KeyError`,
`unparseable` the caught `ValueError` of `datetime.fromisoformat` on a
non-timestamp string, and `parsed t` a timestamp `t` in seconds. -/
inductive FetchedAt where
  | missing
  | unparseable
  | parsed (t : ℤ)
deriving DecidableEq

/-- `cache_is_stale` from `app.py`: `age.total_seconds() > max_age_minutes
* 60`, with a caught `KeyError`/`ValueError` yielding `True`. The source's
default `max_age_minutes` is `120`. -/
def cache_is_stale (payload_fetched_at : FetchedAt) (now max_age_minutes : ℤ) : Bool :=
  match payload_fetched_at with
  | .missing => true
  | .unparseable => true
  | .parsed t => max_age_minutes * 60 < now - t

/-! ## Helper lemmas -/

/-- `find?` is the head of `filter`. -/
theorem find?_eq_head?_filter (p : α → Bool) (l : List α) :
    l.find? p = (l.filter p).head? := by
  induction l with
  | nil => rfl
  | cons a as ih =>
    cases hp : p a
    · rw [List.find?_cons_of_neg _ (by simp [hp]), List.filter_cons, ih]
      simp [hp]
    · rw [List.find?_cons_of_pos _ hp, List.filter_cons]
      simp [hp]

/-- Finding over the reverse is the last match. -/
theorem find?_reverse_eq_getLast?_filter (p : α → Bool) (l : List α) :
    l.reverse.find? p = (l.filter p).getLast? := by
  rw [find?_eq_head?_filter, List.filter_reverse, List.head?_reverse]

/-! ## C3 -/

/-- C3: `cache_is_stale` (at the source's default `max_age_minutes = 120`)
returns `True` on a payload fetched 121 minutes before now, `False` on one
fetched 119 minutes before now, and `True` — not an error — when
`fetched_at` is missing (`KeyError`) or unparseable (`ValueError`). -/
theorem claim_C3_freshness_policy (now : ℤ) :
    cache_is_stale (.parsed (now - 121 * 60)) now 120 = true ∧
    cache_is_stale (.parsed (now - 119 * 60)) now 120 = false ∧
    cache_is_stale .missing now 120 = true ∧
    cache_is_stale .unparseable now 120 = true := by
  refine ⟨?_, ?_, rfl, rfl⟩
  · rw [show cache_is_stale (.parsed (now - 121 * 60)) now 120 =
        decide ((120 : ℤ) * 60 < now - (now - 121 * 60)) from rfl,
      decide_eq_true_eq]
    omega
  · rw [show cache_is_stale (.parsed (now - 119 * 60)) now 120 =
        decide ((120 : ℤ) * 60 < now - (now - 119 * 60)) from rfl]
    rw [decide_eq_false_iff_not]
    omega

/-! ## C7 -/

/-- C7: `aurora_visibility` is total and deterministic: Kp 7 maps to
"Mid-latitudes (< 50°)" with latitude 7, absent Kp maps to "Unknown" with
no latitude, any negative Kp maps to "Not visible" with no latitude, and
every nonnegative Kp selects the highest threshold of the fixed descending
table that is `≤` the Kp value, with that row's label. -/
theorem claim_C7_aurora_mapping :
    aurora_visibility (some 7) = ⟨"Mid-latitudes (< 50°)", some 7⟩ ∧
    aurora_visibility none = ⟨"Unknown", none⟩ ∧
    (∀ q : ℚ, q < 0 → aurora_visibility (some q) = ⟨"Not visible", none⟩) ∧
    (∀ q : ℚ, 0 ≤ q → ∃ t : ℕ, ∃ lbl : String,
      aurora_visibility (some q) = ⟨lbl, some t⟩ ∧ (t, lbl) ∈ auroraTable ∧
      (t : ℚ) ≤ q ∧ ∀ s : ℕ, s ≤ 9 → (s : ℚ) ≤ q → s ≤ t) := by
  refine ⟨by norm_num [aurora_visibility, auroraFind, auroraTable], rfl, ?_, ?_⟩
  · intro q hq
    have h9 : ¬ (9:ℚ) ≤ q := by linarith
    have h8 : ¬ (8:ℚ) ≤ q := by linarith
    have h7 : ¬ (7:ℚ) ≤ q := by linarith
    have h6 : ¬ (6:ℚ) ≤ q := by linarith
    have h5 : ¬ (5:ℚ) ≤ q := by linarith
    have h4 : ¬ (4:ℚ) ≤ q := by linarith
    have h3 : ¬ (3:ℚ) ≤ q := by linarith
    have h2 : ¬ (2:ℚ) ≤ q := by linarith
    have h1 : ¬ (1:ℚ) ≤ q := by linarith
    have h0 : ¬ (0:ℚ) ≤ q := by linarith
    simp [aurora_visibility, auroraFind, auroraTable, h9, h8, h7, h6, h5, h4,
      h3, h2, h1, h0]
  · intro q hq
    rcases le_or_lt 9 q with h9 | h9
    · refine ⟨9, "Equatorial regions (< 40°)", ?_, by simp [auroraTable], ?_, ?_⟩
      · norm_num [aurora_visibility, auroraFind, auroraTable, h9]
      · exact_mod_cast h9
      · intro s hs _; exact hs
    rcases le_or_lt 8 q with h8 | h8
    · refine ⟨8, "Mid-latitudes (< 45°)", ?_, by simp [auroraTable], ?_, ?_⟩
      · norm_num [aurora_visibility, auroraFind, auroraTable, not_le.mpr h9, h8]
      · exact_mod_cast h8
      · intro s _ hsq
        have : (s : ℚ) < 9 := lt_of_le_of_lt hsq h9
        have : s < 9 := by exact_mod_cast this
        omega
    rcases le_or_lt 7 q with h7 | h7
    · refine ⟨7, "Mid-latitudes (< 50°)", ?_, by simp [auroraTable], ?_, ?_⟩
      · norm_num [aurora_visibility, auroraFind, auroraTable, not_le.mpr h9,
          not_le.mpr h8, h7]
      · exact_mod_cast h7
      · intro s _ hsq
        have : (s : ℚ) < 8 := lt_of_le_of_lt hsq h8
        have : s < 8 := by exact_mod_cast this
        omega
    rcases le_or_lt 6 q with h6 | h6
    · refine ⟨6, "Mid-latitudes (< 55°)", ?_, by simp [auroraTable], ?_, ?_⟩
      · norm_num [aurora_visibility, auroraFind, auroraTable, not_le.mpr h9,
          not_le.mpr h8, not_le.mpr h7, h6]
      · exact_mod_cast h6
      · intro s _ hsq
        have : (s : ℚ) < 7 := lt_of_le_of_lt hsq h7
        have : s < 7 := by exact_mod_cast this
        omega
    rcases le_or_lt 5 q with h5 | h5
    · refine ⟨5, "Mid-latitudes (< 60°)", ?_, by simp [auroraTable], ?_, ?_⟩
      · norm_num [aurora_visibility, auroraFind, auroraTable, not_le.mpr h9,
          not_le.mpr h8, not_le.mpr h7, not_le.mpr h6, h5]
      · exact_mod_cast h5
      · intro s _ hsq
        have : (s : ℚ) < 6 := lt_of_le_of_lt hsq h6
        have : s < 6 := by exact_mod_cast this
        omega
    rcases le_or_lt 4 q with h4 | h4
    · refine ⟨4, "High latitudes (< 65°)", ?_, by simp [auroraTable], ?_, ?_⟩
      · norm_num [aurora_visibility, auroraFind, auroraTable, not_le.mpr h9,
          not_le.mpr h8, not_le.mpr h7, not_le.mpr h6, not_le.mpr h5, h4]
      · exact_mod_cast h4
      · intro s _ hsq
        have : (s : ℚ) < 5 := lt_of_le_of_lt hsq h5
        have : s < 5 := by exact_mod_cast this
        omega
    rcases le_or_lt 3 q with h3 | h3
    · refine ⟨3, "High latitudes (< 65°)", ?_, by simp [auroraTable], ?_, ?_⟩
      · norm_num [aurora_visibility, auroraFind, auroraTable, not_le.mpr h9,
          not_le.mpr h8, not_le.mpr h7, not_le.mpr h6, not_le.mpr h5,
          not_le.mpr h4, h3]
      · exact_mod_cast h3
      · intro s _ hsq
        have : (s : ℚ) < 4 := lt_of_le_of_lt hsq h4
        have : s < 4 := by exact_mod_cast this
        omega
    rcases le_or_lt 2 q with h2 | h2
    · refine ⟨2, "Sub-auroral zone (> 65°)", ?_, by simp [auroraTable], ?_, ?_⟩
      · norm_num [aurora_visibility, auroraFind, auroraTable, not_le.mpr h9,
          not_le.mpr h8, not_le.mpr h7, not_le.mpr h6, not_le.mpr h5,
          not_le.mpr h4, not_le.mpr h3, h2]
      · exact_mod_cast h2
      · intro s _ hsq
        have : (s : ℚ) < 3 := lt_of_le_of_lt hsq h3
        have : s < 3 := by exact_mod_cast this
        omega
    rcases le_or_lt 1 q with h1 | h1
    · refine ⟨1, "Polar regions only (> 70°)", ?_, by simp [auroraTable], ?_, ?_⟩
      · norm_num [aurora_visibility, auroraFind, auroraTable, not_le.mpr h9,
          not_le.mpr h8, not_le.mpr h7, not_le.mpr h6, not_le.mpr h5,
          not_le.mpr h4, not_le.mpr h3, not_le.mpr h2, h1]
      · exact_mod_cast h1
      · intro s _ hsq
        have : (s : ℚ) < 2 := lt_of_le_of_lt hsq h2
        have : s < 2 := by exact_mod_cast this
        omega
    · refine ⟨0, "Not visible", ?_, by simp [auroraTable], by exact_mod_cast hq, ?_⟩
      · norm_num [aurora_visibility, auroraFind, auroraTable, not_le.mpr h9,
          not_le.mpr h8, not_le.mpr h7, not_le.mpr h6, not_le.mpr h5,
          not_le.mpr h4, not_le.mpr h3, not_le.mpr h2, not_le.mpr h1, hq]
      · intro s _ hsq
        have : (s : ℚ) < 1 := lt_of_le_of_lt hsq h1
        have : s < 1 := by exact_mod_cast this
        omega

/-- C7 witness: the negative-Kp branch of `claim_C7_aurora_mapping`
applied at the concrete input `-1`. -/
theorem claim_C7_aurora_mapping_witness :
    aurora_visibility (some (-1)) = ⟨"Not visible", none⟩ :=
  claim_C7_aurora_mapping.2.2.1 (-1) (by norm_num)

/-! ## C5 -/

/-- C5: `parse_scales` always returns a record with exactly the keys
`G`, `S`, `R` (by the type `ScalesOut`); an absent — falsy — input yields
`G0`/"Quiet", `S0`/"None", `R0`/"None"; and for a present (nonempty)
response, each of `G`/`S`/`R` missing from the `"0"` entry defaults to
`("<Key>0", "None")`. -/
theorem claim_C5_scales_defaults :
    parse_scales none = ⟨⟨"G0", "Quiet"⟩, ⟨"S0", "None"⟩, ⟨"R0", "None"⟩⟩ ∧
    parse_scales (some []) = ⟨⟨"G0", "Quiet"⟩, ⟨"S0", "None"⟩, ⟨"R0", "None"⟩⟩ ∧
    ∀ p more,
      let cur := ((((p :: more) : List (String × ScalesCurrent)).lookup "0").getD
        ⟨none, none, none⟩)
      (cur.gE = none → (parse_scales (some (p :: more))).G = ⟨"G0", "None"⟩) ∧
      (cur.sE = none → (parse_scales (some (p :: more))).S = ⟨"S0", "None"⟩) ∧
      (cur.rE = none → (parse_scales (some (p :: more))).R = ⟨"R0", "None"⟩) := by
  refine ⟨rfl, rfl, ?_⟩
  intro p more
  refine ⟨?_, ?_, ?_⟩ <;> intro h <;>
    simp [parse_scales, scaleEntryOut, h]

/-- C5 witness: `claim_C5_scales_defaults` applied at a concrete present
response whose `"0"` entry has no `G` sub-entry. -/
theorem claim_C5_scales_defaults_witness :
    (parse_scales (some [("0", ⟨none, none, none⟩)])).G = ⟨"G0", "None"⟩ :=
  (claim_C5_scales_defaults.2.2 ("0", ⟨none, none, none⟩) []).1 rfl


/-! ## C6 -/

/-- Dropping fewer elements than the length keeps the last element. -/
theorem getLast?_drop_of_lt (l : List α) (n : ℕ) (h : n < l.length) :
    (l.drop n).getLast? = l.getLast? := by
  conv_rhs => rw [← List.take_append_drop n l]
  rw [List.getLast?_append]
  have hne : l.drop n ≠ [] := by
    intro hnil
    have := congrArg List.length hnil
    simp only [List.length_drop, List.length_nil] at this
    omega
  cases hd : (l.drop n).getLast? with
  | none => exact absurd (List.getLast?_eq_none_iff.mp hd) hne
  | some x => simp

/-- C6: `parse_kp`'s history has length at most 24 and is a suffix of the
readable readings taken in input order (so chronological order is
preserved and unreadable rows are dropped individually), and the current
value always equals the kp value of the last history element (`none`
exactly when the history is empty). -/
theorem claim_C6_kp_invariants (kp_raw : Option (List Row)) :
    (parse_kp kp_raw).history.length ≤ 24 ∧
    (parse_kp kp_raw).history <:+ kpReadings ((kp_raw.getD []).tail) ∧
    (parse_kp kp_raw).current = ((parse_kp kp_raw).history.getLast?).map (·.2) := by
  match kp_raw with
  | none => exact ⟨by simp [parse_kp], by simp [parse_kp, kpReadings], rfl⟩
  | some rows0 =>
    by_cases h0 : rows0.isEmpty
    · refine ⟨?_, ?_, ?_⟩ <;> simp [parse_kp, h0]
    by_cases hr : (kpReadings rows0.tail).isEmpty
    · rw [List.isEmpty_iff] at hr
      refine ⟨?_, ?_, ?_⟩ <;> simp [parse_kp, h0, hr]
    · rw [List.isEmpty_iff] at hr
      have hlen : (kpReadings rows0.tail).length ≠ 0 := by
        simpa [List.length_eq_zero] using hr
      refine ⟨?_, ?_, ?_⟩
      · simp only [parse_kp, h0, Bool.false_eq_true, if_false, List.isEmpty_iff,
          hr, if_neg, Option.getD_some, List.length_drop]
        omega
      · simp only [parse_kp, h0, Bool.false_eq_true, if_false, List.isEmpty_iff,
          hr, if_neg, Option.getD_some]
        exact List.drop_suffix _ _
      · simp only [parse_kp, h0, Bool.false_eq_true, if_false, List.isEmpty_iff,
          hr, if_neg]
        rw [getLast?_drop_of_lt _ _ (by omega)]

/-! ## C8 -/

/-- C8: `fetch_all` always produces the complete six-field payload, with
each field computed from its own endpoint alone (so the absence of any
one endpoint cannot affect the others), and every parser maps a `none`
input to its own default structure — no combination of absent endpoints
raises. -/
theorem claim_C8_aggregator_totality (now : String)
    (plasma_raw mag_raw kp_raw : Option (List Row))
    (scales_raw : Option (List (String × ScalesCurrent)))
    (alerts_raw : Option (List AlertItem)) :
    fetch_all now plasma_raw mag_raw kp_raw scales_raw alerts_raw =
      ⟨now, parse_solar_wind plasma_raw mag_raw, parse_kp kp_raw,
       parse_scales scales_raw, aurora_visibility (parse_kp kp_raw).current,
       parse_alerts alerts_raw⟩ ∧
    parse_solar_wind none none = ⟨none, none, none, none, none, []⟩ ∧
    parse_kp none = ⟨none, []⟩ ∧
    parse_scales none = scalesQuiet ∧
    parse_alerts none = [] ∧
    aurora_visibility none = ⟨"Unknown", none⟩ :=
  ⟨rfl, rfl, rfl, rfl, rfl, rfl⟩

/-! ## Lemmas about the latest-reading scans -/

/-- A plasma row on which the latest-reading iteration completes:
both `float(row[1])` and `float(row[2])` convert. -/
def rowOk (r : Row) : Bool :=
  (floatAt r 1).isSome && (floatAt r 2).isSome

/-- A mag row on which the mag iteration completes: both `float(row[3])`
and `float(row[4])` convert. -/
def magOk (r : Row) : Bool :=
  (floatAt r 3).isSome && (floatAt r 4).isSome

/-- The latest-reading loop stops at the first fully-convertible row of
its input and takes all three fields from it, no matter the initial
state. -/
theorem latestScan_find (l : List Row) (row : Row)
    (h : l.find? rowOk = some row) (d s : Option ℚ) (t : Option Cell) :
    latestScan l d s t =
      ((floatAt row 1).map (pyRound 1), (floatAt row 2).map (pyRound 0),
       row.get? 0) := by
  induction l generalizing d s t with
  | nil => simp at h
  | cons r rest ih =>
    by_cases hp : rowOk r = true
    · rw [List.find?_cons_of_pos _ hp] at h
      obtain rfl : r = row := by injection h
      obtain ⟨dv, hdv⟩ := Option.isSome_iff_exists.mp (Bool.and_elim_left hp)
      obtain ⟨sv, hsv⟩ := Option.isSome_iff_exists.mp (Bool.and_elim_right hp)
      simp [latestScan, hdv, hsv]
    · rw [List.find?_cons_of_neg _ (by simpa using hp)] at h
      cases hdv : floatAt r 1 with
      | none => rw [latestScan, hdv]; exact ih h _ _ _
      | some dv =>
        cases hsv : floatAt r 2 with
        | none => rw [latestScan, hdv, hsv]; exact ih h _ _ _
        | some sv =>
          exact absurd (by simp [rowOk, hdv, hsv]) hp

/-- When no row of the input completes the iteration, the latest-reading
loop never assigns `speed` or `timestamp`, and its `density` is the
initial one or comes from some row whose density converted. -/
theorem latestScan_noBreak (l : List Row) (d s : Option ℚ) (t : Option Cell)
    (h : ∀ r ∈ l, rowOk r = false) :
    (latestScan l d s t).2.1 = s ∧ (latestScan l d s t).2.2 = t := by
  induction l generalizing d with
  | nil => exact ⟨rfl, rfl⟩
  | cons r rest ih =>
    have hr := h r (List.mem_cons_self r rest)
    have hrest : ∀ x ∈ rest, rowOk x = false := fun x hx => h x (List.mem_cons_of_mem r hx)
    cases hdv : floatAt r 1 with
    | none => rw [latestScan, hdv]; exact ih _ hrest
    | some dv =>
      cases hsv : floatAt r 2 with
      | none => rw [latestScan, hdv, hsv]; exact ih _ hrest
      | some sv => simp [rowOk, hdv, hsv] at hr

/-- When no row completes the iteration, a convertible density anywhere
in the input leaves the loop's density assigned. -/
theorem latestScan_density_isSome (l : List Row) (d s : Option ℚ) (t : Option Cell)
    (h : ∀ r ∈ l, rowOk r = false) (hd : d.isSome ∨ ∃ r ∈ l, (floatAt r 1).isSome) :
    (latestScan l d s t).1.isSome := by
  induction l generalizing d with
  | nil =>
    rcases hd with hd | ⟨r, hr, _⟩
    · exact hd
    · exact absurd hr (List.not_mem_nil r)
  | cons r rest ih =>
    have hr := h r (List.mem_cons_self r rest)
    have hrest : ∀ x ∈ rest, rowOk x = false := fun x hx => h x (List.mem_cons_of_mem r hx)
    cases hdv : floatAt r 1 with
    | none =>
      rw [latestScan, hdv]
      refine ih _ hrest ?_
      rcases hd with hd | ⟨x, hx, hxd⟩
      · exact Or.inl hd
      · rcases List.mem_cons.mp hx with rfl | hx'
        · rw [hdv] at hxd; simp at hxd
        · exact Or.inr ⟨x, hx', hxd⟩
    | some dv =>
      cases hsv : floatAt r 2 with
      | none =>
        rw [latestScan, hdv, hsv]
        exact ih _ hrest (Or.inl rfl)
      | some sv => simp [rowOk, hdv, hsv] at hr

/-- `magScan` analogue of `latestScan_noBreak`. -/
theorem magScan_noBreak (l : List Row) (z t : Option ℚ)
    (h : ∀ r ∈ l, magOk r = false) :
    (magScan l z t).2 = t := by
  induction l generalizing z with
  | nil => rfl
  | cons r rest ih =>
    have hr := h r (List.mem_cons_self r rest)
    have hrest : ∀ x ∈ rest, magOk x = false := fun x hx => h x (List.mem_cons_of_mem r hx)
    cases hzv : floatAt r 3 with
    | none => rw [magScan, hzv]; exact ih _ hrest
    | some zv =>
      cases htv : floatAt r 4 with
      | none => rw [magScan, hzv, htv]; exact ih _ hrest
      | some tv => simp [magOk, hzv, htv] at hr

/-- `magScan` analogue of `latestScan_density_isSome`. -/
theorem magScan_bz_isSome (l : List Row) (z t : Option ℚ)
    (h : ∀ r ∈ l, magOk r = false) (hz : z.isSome ∨ ∃ r ∈ l, (floatAt r 3).isSome) :
    (magScan l z t).1.isSome := by
  induction l generalizing z with
  | nil =>
    rcases hz with hz | ⟨r, hr, _⟩
    · exact hz
    · exact absurd hr (List.not_mem_nil r)
  | cons r rest ih =>
    have hr := h r (List.mem_cons_self r rest)
    have hrest : ∀ x ∈ rest, magOk x = false := fun x hx => h x (List.mem_cons_of_mem r hx)
    cases hzv : floatAt r 3 with
    | none =>
      rw [magScan, hzv]
      refine ih _ hrest ?_
      rcases hz with hz | ⟨x, hx, hxz⟩
      · exact Or.inl hz
      · rcases List.mem_cons.mp hx with rfl | hx'
        · rw [hzv] at hxz; simp at hxz
        · exact Or.inr ⟨x, hx', hxz⟩
    | some zv =>
      cases htv : floatAt r 4 with
      | none =>
        rw [magScan, hzv, htv]
        exact ih _ hrest (Or.inl rfl)
      | some tv => simp [magOk, hzv, htv] at hr

/-! ## C4 -/

/-- C4: whenever some plasma data row (header excluded) has both density
and speed convertible, `parse_solar_wind` reports the rounded density,
rounded speed and timestamp of the most recent such row — the last
element of the filtered row list — skipping any trailing malformed
rows. -/
theorem claim_C4_latest_reading (plasma_raw mag_raw : Option (List Row)) (row : Row)
    (h : (((plasma_raw.getD []).tail).filter rowOk).getLast? = some row) :
    (parse_solar_wind plasma_raw mag_raw).density = (floatAt row 1).map (pyRound 1) ∧
    (parse_solar_wind plasma_raw mag_raw).speed = (floatAt row 2).map (pyRound 0) ∧
    (parse_solar_wind plasma_raw mag_raw).timestamp = row.get? 0 := by
  have hfind : ((plasma_raw.getD []).tail).reverse.find? rowOk = some row := by
    rw [find?_reverse_eq_getLast?_filter]; exact h
  have hne : (plasma_raw.getD []).tail ≠ [] := by
    intro hnil
    rw [hnil] at h
    simp at h
  obtain ⟨x, xs, hx⟩ : ∃ x xs, plasma_raw = some (x :: xs) := by
    match plasma_raw with
    | none => exact absurd rfl hne
    | some [] => exact absurd rfl hne
    | some (x :: xs) => exact ⟨x, xs, rfl⟩
  subst hx
  have hscan := latestScan_find _ _ hfind none none none
  simp only [Option.getD_some, List.tail_cons] at hscan
  rcases mag_raw with _ | (_ | ⟨y, ys⟩) <;>
    simp [parse_solar_wind, truthy, hscan, List.get?_eq_getElem?]

/-- C4 witness: `claim_C4_latest_reading` at a concrete plasma list whose
final row is malformed, so the result comes from the preceding row. -/
theorem claim_C4_latest_reading_witness :
    (parse_solar_wind (some [[Cell.txt "time", Cell.txt "density", Cell.txt "speed"],
        [Cell.txt "t1", Cell.val 5, Cell.val 400],
        [Cell.txt "t2", Cell.val 6, Cell.txt "bad"]]) none).density =
      (floatAt [Cell.txt "t1", Cell.val 5, Cell.val 400] 1).map (pyRound 1) ∧
    (parse_solar_wind (some [[Cell.txt "time", Cell.txt "density", Cell.txt "speed"],
        [Cell.txt "t1", Cell.val 5, Cell.val 400],
        [Cell.txt "t2", Cell.val 6, Cell.txt "bad"]]) none).speed =
      (floatAt [Cell.txt "t1", Cell.val 5, Cell.val 400] 2).map (pyRound 0) ∧
    (parse_solar_wind (some [[Cell.txt "time", Cell.txt "density", Cell.txt "speed"],
        [Cell.txt "t1", Cell.val 5, Cell.val 400],
        [Cell.txt "t2", Cell.val 6, Cell.txt "bad"]]) none).timestamp =
      [Cell.txt "t1", Cell.val 5, Cell.val 400].get? 0 :=
  claim_C4_latest_reading
    (some [[Cell.txt "time", Cell.txt "density", Cell.txt "speed"],
        [Cell.txt "t1", Cell.val 5, Cell.val 400],
        [Cell.txt "t2", Cell.val 6, Cell.txt "bad"]]) none
    [Cell.txt "t1", Cell.val 5, Cell.val 400] (by decide)

/-! ## C10 -/

/-- C10: the latest-reading extraction is not atomic per row: when no
plasma data row has both density and speed convertible but some row has a
convertible density, the result has a partially-updated record — density
assigned, speed and timestamp still `None`; analogously for the mag scan,
bz assigned with bt still `None`. -/
theorem claim_C10_partial_update (plasma_raw mag_raw : Option (List Row))
    (hp1 : ∀ r ∈ (plasma_raw.getD []).tail, rowOk r = false)
    (hp2 : ∃ r ∈ (plasma_raw.getD []).tail, (floatAt r 1).isSome)
    (hm1 : ∀ r ∈ (mag_raw.getD []).tail, magOk r = false)
    (hm2 : ∃ r ∈ (mag_raw.getD []).tail, (floatAt r 3).isSome) :
    (parse_solar_wind plasma_raw mag_raw).density.isSome = true ∧
    (parse_solar_wind plasma_raw mag_raw).speed = none ∧
    (parse_solar_wind plasma_raw mag_raw).timestamp = none ∧
    (parse_solar_wind plasma_raw mag_raw).bz.isSome = true ∧
    (parse_solar_wind plasma_raw mag_raw).bt = none := by
  obtain ⟨rp, hrp, hrpd⟩ := hp2
  obtain ⟨rm, hrm, hrmz⟩ := hm2
  obtain ⟨x, xs, hx⟩ : ∃ x xs, plasma_raw = some (x :: xs) := by
    match plasma_raw with
    | none => simp at hrp
    | some [] => simp at hrp
    | some (x :: xs) => exact ⟨x, xs, rfl⟩
  obtain ⟨y, ys, hy⟩ : ∃ y ys, mag_raw = some (y :: ys) := by
    match mag_raw with
    | none => simp at hrm
    | some [] => simp at hrm
    | some (y :: ys) => exact ⟨y, ys, rfl⟩
  subst hx hy
  simp only [Option.getD_some, List.tail_cons] at hp1 hm1 hrp hrm
  have hp1r : ∀ r ∈ xs.reverse, rowOk r = false := fun r hr =>
    hp1 r (List.mem_reverse.mp hr)
  have hm1r : ∀ r ∈ ys.reverse, magOk r = false := fun r hr =>
    hm1 r (List.mem_reverse.mp hr)
  have hdens := latestScan_density_isSome xs.reverse none none none hp1r
    (Or.inr ⟨rp, List.mem_reverse.mpr hrp, hrpd⟩)
  have hnb := latestScan_noBreak xs.reverse none none none hp1r
  have hbz := magScan_bz_isSome ys.reverse none none hm1r
    (Or.inr ⟨rm, List.mem_reverse.mpr hrm, hrmz⟩)
  have hmb := magScan_noBreak ys.reverse none none hm1r
  refine ⟨?_, ?_, ?_, ?_, ?_⟩ <;>
    simp [parse_solar_wind, truthy, hdens, hnb.1, hnb.2, hbz, hmb]

/-- C10 witness: `claim_C10_partial_update` at a concrete input where the
single plasma data row has a convertible density but an unconvertible
speed, and the single mag data row has a convertible bz but an
unconvertible bt. -/
theorem claim_C10_partial_update_witness :
    (parse_solar_wind (some [[Cell.txt "h"], [Cell.txt "t", Cell.val 5, Cell.txt "x"]])
      (some [[Cell.txt "h"], [Cell.txt "t", Cell.val 0, Cell.val 0, Cell.val 3,
        Cell.txt "x"]])).density.isSome = true ∧
    (parse_solar_wind (some [[Cell.txt "h"], [Cell.txt "t", Cell.val 5, Cell.txt "x"]])
      (some [[Cell.txt "h"], [Cell.txt "t", Cell.val 0, Cell.val 0, Cell.val 3,
        Cell.txt "x"]])).speed = none ∧
    (parse_solar_wind (some [[Cell.txt "h"], [Cell.txt "t", Cell.val 5, Cell.txt "x"]])
      (some [[Cell.txt "h"], [Cell.txt "t", Cell.val 0, Cell.val 0, Cell.val 3,
        Cell.txt "x"]])).timestamp = none ∧
    (parse_solar_wind (some [[Cell.txt "h"], [Cell.txt "t", Cell.val 5, Cell.txt "x"]])
      (some [[Cell.txt "h"], [Cell.txt "t", Cell.val 0, Cell.val 0, Cell.val 3,
        Cell.txt "x"]])).bz.isSome = true ∧
    (parse_solar_wind (some [[Cell.txt "h"], [Cell.txt "t", Cell.val 5, Cell.txt "x"]])
      (some [[Cell.txt "h"], [Cell.txt "t", Cell.val 0, Cell.val 0, Cell.val 3,
        Cell.txt "x"]])).bt = none :=
  claim_C10_partial_update
    (some [[Cell.txt "h"], [Cell.txt "t", Cell.val 5, Cell.txt "x"]])
    (some [[Cell.txt "h"], [Cell.txt "t", Cell.val 0, Cell.val 0, Cell.val 3,
      Cell.txt "x"]])
    (by decide) (by decide) (by decide) (by decide)

/-! ## C1 -/

/-- `sliceRun` on the empty list is empty, for any fuel. -/
theorem sliceRun_nil (step fuel : ℕ) : sliceRun step fuel ([] : List α) = [] := by
  cases fuel <;> rfl

/-- `sliceRun` with enough fuel is a sublist of its input. -/
theorem sliceRun_sublist (step : ℕ) :
    ∀ (fuel : ℕ) (l : List α), (sliceRun step fuel l).Sublist l := by
  intro fuel
  induction fuel with
  | zero =>
    intro l
    match l with
    | [] => simp [sliceRun]
    | x :: xs => simp [sliceRun]
  | succ n ih =>
    intro l
    match l with
    | [] => simp [sliceRun]
    | x :: xs =>
      rw [sliceRun]
      exact ((ih _).trans (List.drop_sublist _ _)).cons₂ x

/-- `l[::step]` is a sublist: order is preserved. -/
theorem sliceStep_sublist (l : List α) (step : ℕ) :
    (sliceStep l step).Sublist l :=
  sliceRun_sublist step l.length l

/-- Length bound on `sliceRun` with enough fuel: the result times the
stride is at most the input length plus `step - 1`. -/
theorem sliceRun_length_mul (step : ℕ) (hs : 1 ≤ step) :
    ∀ (fuel : ℕ) (l : List α), l.length ≤ fuel →
      (sliceRun step fuel l).length * step ≤ l.length + (step - 1) := by
  intro fuel
  induction fuel with
  | zero =>
    intro l hl
    have : l = [] := List.eq_nil_of_length_eq_zero (by omega)
    subst this
    simp [sliceRun]
  | succ n ih =>
    intro l hl
    match l with
    | [] => simp [sliceRun]
    | x :: xs =>
      rw [sliceRun]
      rcases Nat.lt_or_ge xs.length (step - 1) with hlt | hge
      · have hdrop : xs.drop (step - 1) = [] := List.drop_eq_nil_of_le (le_of_lt hlt)
        rw [hdrop, sliceRun_nil]
        simp only [List.length_cons, List.length_nil]
        omega
      · have hfuel : (xs.drop (step - 1)).length ≤ n := by
          rw [List.length_drop]
          simp only [List.length_cons] at hl
          omega
        have ihh := ih (xs.drop (step - 1)) hfuel
        rw [List.length_drop] at ihh
        simp only [List.length_cons]
        generalize hz : (sliceRun step n (xs.drop (step - 1))).length = z at ihh ⊢
        have hexp : (z + 1) * step = z * step + step := by ring
        omega

/-- Length bound on `l[::step]`. -/
theorem sliceStep_length_mul (l : List α) (step : ℕ) (hs : 1 ≤ step) :
    (sliceStep l step).length * step ≤ l.length + (step - 1) :=
  sliceRun_length_mul step hs l.length l le_rfl

/-- Helper: the timeseries field of `parse_solar_wind`, for any inputs. -/
theorem parse_solar_wind_timeseries (plasma_raw mag_raw : Option (List Row)) :
    (parse_solar_wind plasma_raw mag_raw).timeseries =
      (if 60 < (tsEntries ((plasma_raw.getD []).tail)).length
       then sliceStep (tsEntries ((plasma_raw.getD []).tail))
         (max 1 ((tsEntries ((plasma_raw.getD []).tail)).length / 60))
       else tsEntries ((plasma_raw.getD []).tail)) := by
  rcases plasma_raw with _ | (_ | ⟨x, xs⟩) <;>
    rcases mag_raw with _ | (_ | ⟨y, ys⟩) <;>
      simp [parse_solar_wind, truthy, tsEntries]

/-- C1 counterexample: with a header and 61 valid plasma rows the
timeseries keeps all 61 points (the code's stride is `61 // 60 = 1`), so
the claimed bound of at most 60 points fails. -/
theorem claim_C1_timeseries_cex :
    ¬ ((parse_solar_wind
        (some ([Cell.txt "h"] :: List.replicate 61 [Cell.txt "t", Cell.val 1, Cell.val 1]))
        none).timeseries.length ≤ 60) := by
  decide

/-- C1 amended: the timeseries built by `parse_solar_wind` is the valid
positive-speed rows in input order when they number at most 60; beyond 60
it is downsampled by the fixed integer stride `max(1, floor(length/60))`,
which preserves the input order (the result is a sublist of the valid
sequence) and bounds the result below 120 points, though it can exceed
60. -/
theorem claim_C1_timeseries_amended (plasma_raw mag_raw : Option (List Row)) :
    ((parse_solar_wind plasma_raw mag_raw).timeseries).Sublist
      (tsEntries ((plasma_raw.getD []).tail)) ∧
    (parse_solar_wind plasma_raw mag_raw).timeseries.length ≤ 119 ∧
    ((tsEntries ((plasma_raw.getD []).tail)).length ≤ 60 →
      (parse_solar_wind plasma_raw mag_raw).timeseries =
        tsEntries ((plasma_raw.getD []).tail)) := by
  rw [parse_solar_wind_timeseries]
  by_cases h : 60 < (tsEntries ((plasma_raw.getD []).tail)).length
  · rw [if_pos h]
    refine ⟨sliceStep_sublist _ _, ?_, fun hle => absurd h (by omega)⟩
    have hs : 1 ≤ max 1 ((tsEntries ((plasma_raw.getD []).tail)).length / 60) :=
      le_max_left _ _
    have hmul := sliceStep_length_mul (tsEntries ((plasma_raw.getD []).tail)) _ hs
    have hs60 : max 1 ((tsEntries ((plasma_raw.getD []).tail)).length / 60) =
        (tsEntries ((plasma_raw.getD []).tail)).length / 60 :=
      Nat.max_eq_right ((Nat.one_le_div_iff (by omega)).mpr (by omega))
    rw [hs60] at hmul ⊢
    by_contra hc
    push_neg at hc
    have h120 : 120 ≤ (sliceStep (tsEntries ((plasma_raw.getD []).tail))
        ((tsEntries ((plasma_raw.getD []).tail)).length / 60)).length := hc
    have hstep := Nat.mul_le_mul_right
      ((tsEntries ((plasma_raw.getD []).tail)).length / 60) h120
    have hchain := le_trans hstep hmul
    omega
  · rw [if_neg h]
    exact ⟨List.Sublist.refl _, by omega, fun _ => rfl⟩

/-- C1 amended witness: `claim_C1_timeseries_amended` at a concrete
two-row input, discharging the at-most-60-points hypothesis. -/
theorem claim_C1_timeseries_amended_witness :
    (parse_solar_wind (some [[Cell.txt "h"], [Cell.txt "t", Cell.val 1, Cell.val 1]])
      none).timeseries = tsEntries [[Cell.txt "t", Cell.val 1, Cell.val 1]] :=
  (claim_C1_timeseries_amended
    (some [[Cell.txt "h"], [Cell.txt "t", Cell.val 1, Cell.val 1]]) none).2.2
    (by decide)

/-! ## C2 -/

/-- `Option.elim` through a cons's `getLast?` skips to the new default. -/
theorem elim_getLast?_cons (a : α) (l : List α) (b : β) (f : α → β) :
    ((a :: l).getLast?).elim b f = (l.getLast?).elim (f a) f := by
  cases l with
  | nil => rfl
  | cons c cs =>
    rw [List.getLast?_cons_cons]
    cases hg : (c :: cs).getLast? with
    | none => exact absurd (List.getLast?_eq_none_iff.mp hg) (by simp)
    | some x => rfl

/-- The empty line matches no headline keyword. -/
theorem kwLine_empty : kwLine "" = false := by decide

/-- The first component of `alertScan` is the already-assigned headline,
or else the first keyword line. -/
theorem alertScan_fst (ls : List String) (h imp : String) :
    (alertScan ls h imp).1 =
      if h = "" then (((ls.map pyStrip).find? kwLine).getD "") else h := by
  induction ls generalizing h imp with
  | nil => by_cases hb : h = "" <;> simp [alertScan, hb]
  | cons l ls ih =>
    have hstep : alertScan (l :: ls) h imp =
        alertScan ls (if h == "" && kwLine (pyStrip l) then pyStrip l else h)
          (if impLine (pyStrip l) then impStrip (pyStrip l) else imp) := rfl
    rw [hstep, ih]
    by_cases hb : h = ""
    · subst hb
      by_cases hk : kwLine (pyStrip l) = true
      · have hne : pyStrip l ≠ "" := by
          intro he
          rw [he, kwLine_empty] at hk
          exact Bool.false_ne_true hk
        simp [hk, hne, List.find?_cons_of_pos _ hk]
      · have hk' : kwLine (pyStrip l) = false := by simpa using hk
        simp [hk', List.find?_cons_of_neg _ hk]
    · have hbeq : (h == "") = false := by simpa using hb
      simp [hb, hbeq]

/-- The second component of `alertScan` is the transformation of the last
impacts line, or else the already-assigned value. -/
theorem alertScan_snd (ls : List String) (h imp : String) :
    (alertScan ls h imp).2 =
      (((ls.map pyStrip).filter impLine).getLast?).elim imp impStrip := by
  induction ls generalizing h imp with
  | nil => simp [alertScan]
  | cons l ls ih =>
    by_cases hi : impLine (pyStrip l) = true
    · simp only [alertScan, hi, if_true, ih, List.map_cons, List.filter_cons,
        elim_getLast?_cons]
    · have hi' : impLine (pyStrip l) = false := by
        cases hii : impLine (pyStrip l)
        · rfl
        · exact absurd hii hi
      simp only [alertScan, hi', if_false, ih, List.map_cons, List.filter_cons,
        Bool.false_eq_true]

/-- `alertFallback` is the first nonempty non-boilerplate stripped line. -/
theorem alertFallback_eq (ls : List String) :
    alertFallback ls = ((ls.map pyStrip).find? fbLine).getD "" := by
  induction ls with
  | nil => rfl
  | cons l ls ih =>
    by_cases hf : fbLine (pyStrip l) = true
    · simp only [alertFallback, hf, if_true, List.map_cons,
        List.find?_cons_of_pos _ hf, Option.getD_some]
    · have hf' : fbLine (pyStrip l) = false := by simpa using hf
      simp only [alertFallback, hf', if_false, ih, List.map_cons,
        List.find?_cons_of_neg _ hf, Bool.false_eq_true]

/-- The headline claimed by the (amended) specification: the first
stripped keyword line; when none exists, the first stripped line that is
nonempty and free of boilerplate; otherwise empty. -/
def specHeadline (ls : List String) : String :=
  match (ls.map pyStrip).find? kwLine with
  | some l => l
  | none => ((ls.map pyStrip).find? fbLine).getD ""

/-- The impacts field claimed by the (amended) specification: the LAST
stripped line beginning with `"Potential Impacts:"`, with every
occurrence of that keyword removed and the result stripped; empty when no
such line exists. -/
def specImpacts (ls : List String) : String :=
  (((ls.map pyStrip).filter impLine).getLast?).elim "" impStrip

/-- The per-item output claimed by the (amended) specification. -/
def specAlert (item : AlertItem) : AlertOut :=
  ⟨item.product_id.getD "", item.issue_datetime.getD "",
   specHeadline (splitLines (item.message.getD "")),
   specImpacts (splitLines (item.message.getD ""))⟩

/-- The output claimed by the (amended) specification: the first five
records, mapped. -/
def specAlerts (alerts_raw : Option (List AlertItem)) : List AlertOut :=
  match alerts_raw with
  | none => []
  | some items =>
    if items.isEmpty then []
    else (items.take 5).map specAlert

/-- The loop of `parse_alerts` and the specification's description agree
on every item. -/
theorem mkAlert_eq_specAlert (item : AlertItem) : mkAlert item = specAlert item := by
  simp only [mkAlert, specAlert, specHeadline, specImpacts, alertScan_fst,
    alertScan_snd]
  cases hf : ((splitLines (item.message.getD "")).map pyStrip).find? kwLine with
  | none => simp [hf, alertFallback_eq]
  | some l =>
    have hl : kwLine l = true := List.find?_some hf
    have hne : l ≠ "" := by
      intro he
      rw [he, kwLine_empty] at hl
      exact Bool.false_ne_true hl
    have hbeq : (l == "") = false := by simpa using hne
    simp [hf, hbeq]

/-- C2 counterexample: in a message with two `"Potential Impacts:"`
lines, the code reports the last one ("B"), while the claim's "first line
beginning with Potential Impacts:" (prefix stripped) is "A". -/
theorem claim_C2_alerts_cex :
    (parse_alerts (some [⟨some "WARNING: w\nPotential Impacts: A\nPotential Impacts: B",
        some "id", some "tm"⟩])).map (fun a => a.impacts) = ["B"] ∧
    ((((splitLines "WARNING: w\nPotential Impacts: A\nPotential Impacts: B").map
        pyStrip).find? impLine).map impStrip) = some "A" ∧
    ("B" : String) ≠ "A" := by
  refine ⟨by decide, by decide, by decide⟩

/-- C2 amended: `parse_alerts` processes at most the first 5 records; for
each, the headline is the first stripped line beginning with one of
WARNING:, ALERT:, WATCH:, SUMMARY:, CONTINUED, the impacts field is the
LAST stripped line beginning with "Potential Impacts:" (every occurrence
of that keyword removed, result stripped), and when no keyword line
exists the headline falls back to the first nonempty stripped line not
starting with Space Weather, Serial, Issue Time, or NOAA; absence of any
matching line yields empty strings, never an error. -/
theorem claim_C2_alerts_amended (alerts_raw : Option (List AlertItem)) :
    parse_alerts alerts_raw = specAlerts alerts_raw ∧
    (parse_alerts alerts_raw).length ≤ 5 := by
  have hfun : mkAlert = specAlert := funext mkAlert_eq_specAlert
  constructor
  · cases alerts_raw with
    | none => rfl
    | some items =>
      by_cases hi : items.isEmpty <;>
        simp [parse_alerts, specAlerts, hi, hfun]
  · cases alerts_raw with
    | none => simp [parse_alerts]
    | some items =>
      by_cases hi : items.isEmpty
      · simp [parse_alerts, hi]
      · simp only [parse_alerts, hi, Bool.false_eq_true, if_false,
          List.length_map, List.length_take]
        omega

/-! ## C9: the JSON cache round trip

`write_cache` serializes the payload with `json.dump(payload, f, indent=2)`
and `load_cache` reads it back with `json.load`.  The payload domain of the
claim — JSON-representable dicts, lists, strings, numbers, booleans, `None`
— is the tree type `Json` below (numbers are decimal `m * 10^-e`, which is
what serialized Python floats and ints are on the wire).  The serializer
follows `json.dump` with `indent=2` (arrays and objects open a line per
element at two more columns, `": "` after keys); strings are escaped as in
the JSON grammar (`\"`, `\\`, `\n`, `\t`, `\r`, `\b`, `\f`, `\u00XX` for
other control characters; other characters are kept literal, where CPython's
default `ensure_ascii` would also escape non-ASCII — both are valid JSON
spellings and `json.load` accepts either).  The parser is a fuelled
recursive-descent JSON reader; the cache file itself is a single
`Option String` slot. -/

/-- A JSON value: the WeatherPayload wire schema. -/
inductive Json where
  | null
  | bool (b : Bool)
  | num (m : ℤ) (e : ℕ)
  | str (s : String)
  | arr (elems : List Json)
  | obj (fields : List (String × Json))

/-- The decimal digit character for `d % 10`. -/
def digitChar (d : ℕ) : Char :=
  Char.ofNat (48 + d % 10)

/-- The numeric value of a digit character. -/
def charDigit (c : Char) : ℕ :=
  c.toNat - 48

/-- Fuelled big-endian decimal digits of a natural number; fuel `n` is
enough. -/
def natDigitsRun : ℕ → ℕ → List Char
  | 0, n => [digitChar n]
  | fuel + 1, n =>
    if n < 10 then [digitChar n]
    else natDigitsRun fuel (n / 10) ++ [digitChar (n % 10)]

/-- Big-endian decimal digits of a natural number. -/
def natDigits (n : ℕ) : List Char :=
  natDigitsRun n n

/-- The value of a big-endian digit string. -/
def digitsVal (ds : List Char) : ℕ :=
  ds.foldl (fun a c => a * 10 + charDigit c) 0

/-- Serialize the unsigned decimal number `n * 10^-e`: for `e = 0` an
integer literal, otherwise digits with a decimal point before the last
`e` of them (zero-padded so an integer digit survives). -/
def numRenderNat (n e : ℕ) : List Char :=
  let ds := natDigits n
  if e = 0 then ds
  else
    let pds := List.replicate (e + 1 - ds.length) '0' ++ ds
    pds.take (pds.length - e) ++ '.' :: pds.drop (pds.length - e)

/-- Serialize the decimal number `m * 10^-e` with its sign. -/
def numRender (m : ℤ) (e : ℕ) : List Char :=
  (if m < 0 then ['-'] else ([] : List Char)) ++ numRenderNat m.natAbs e

/-- Parse an unsigned JSON number: integer digits, optionally a point and
fraction digits; returns the scaled mantissa and the decimal exponent. -/
def parseNumCore (s : List Char) : Option ((ℕ × ℕ) × List Char) :=
  let ds := s.takeWhile Char.isDigit
  if ds.isEmpty then none
  else
    let r1 := s.dropWhile Char.isDigit
    match r1 with
    | '.' :: r2 =>
      let fs := r2.takeWhile Char.isDigit
      if fs.isEmpty then none
      else some ((digitsVal (ds ++ fs), fs.length), r2.dropWhile Char.isDigit)
    | _ => some ((digitsVal ds, 0), r1)

/-- Parse a JSON number with optional leading minus. -/
def parseNumber : List Char → Option (Json × List Char)
  | [] => none
  | c :: r =>
    if c = '-' then
      (parseNumCore r).map fun p => (Json.num (-(p.1.1 : ℤ)) p.1.2, p.2)
    else
      (parseNumCore (c :: r)).map fun p => (Json.num (p.1.1 : ℤ) p.1.2, p.2)

/-- Lowercase hexadecimal digit character. -/
def hexChar (n : ℕ) : Char :=
  if n < 10 then digitChar n else Char.ofNat (87 + n)

/-- The value of a lowercase hexadecimal digit character. -/
def hexVal (c : Char) : ℕ :=
  if c.isDigit then c.toNat - 48 else c.toNat - 87

/-- JSON string escaping of one character. -/
def escapeChar (c : Char) : List Char :=
  if c = '"' then ['\\', '"']
  else if c = '\\' then ['\\', '\\']
  else if c = '\n' then ['\\', 'n']
  else if c = '\t' then ['\\', 't']
  else if c = '\r' then ['\\', 'r']
  else if c = '\x08' then ['\\', 'b']
  else if c = '\x0c' then ['\\', 'f']
  else if c.toNat < 32 then
    ['\\', 'u', '0', '0', hexChar (c.toNat / 16), hexChar (c.toNat % 16)]
  else [c]

/-- JSON string escaping. -/
def escapeStr : List Char → List Char
  | [] => []
  | c :: cs => escapeChar c ++ escapeStr cs

/-- The character named by a one-letter JSON escape. -/
def unescape (e : Char) : Option Char :=
  if e = '"' then some '"'
  else if e = '\\' then some '\\'
  else if e = '/' then some '/'
  else if e = 'n' then some '\n'
  else if e = 't' then some '\t'
  else if e = 'r' then some '\r'
  else if e = 'b' then some '\x08'
  else if e = 'f' then some '\x0c'
  else none

/-- Fuelled parser for a JSON string body after the opening quote, up to
and past the closing quote. -/
def parseStrRun : ℕ → List Char → Option (List Char × List Char)
  | 0, _ => none
  | fuel + 1, s =>
    match s with
    | [] => none
    | c :: r =>
      if c = '"' then some ([], r)
      else if c = '\\' then
        match r with
        | [] => none
        | e :: r1 =>
          if e = 'u' then
            match r1 with
            | h1 :: h2 :: h3 :: h4 :: r2 =>
              (parseStrRun fuel r2).map fun p =>
                (Char.ofNat (((hexVal h1 * 16 + hexVal h2) * 16 + hexVal h3) * 16
                  + hexVal h4) :: p.1, p.2)
            | _ => none
          else
            match unescape e with
            | some u => (parseStrRun fuel r1).map fun p => (u :: p.1, p.2)
            | none => none
      else (parseStrRun fuel r).map fun p => (c :: p.1, p.2)

/-- A JSON whitespace character. -/
def jsonWs (c : Char) : Bool :=
  c = ' ' || c = '\n' || c = '\t' || c = '\r'

/-- Skip JSON whitespace. -/
def skipWs (s : List Char) : List Char :=
  s.dropWhile jsonWs

mutual

/-- Fuelled recursive-descent parser for one JSON value, whitespace
skipped first. -/
def parseVal : ℕ → List Char → Option (Json × List Char)
  | 0, _ => none
  | fuel + 1, s =>
    match skipWs s with
    | [] => none
    | c :: r =>
      if c = 'n' then
        match r with
        | 'u' :: 'l' :: 'l' :: r2 => some (.null, r2)
        | _ => none
      else if c = 't' then
        match r with
        | 'r' :: 'u' :: 'e' :: r2 => some (.bool true, r2)
        | _ => none
      else if c = 'f' then
        match r with
        | 'a' :: 'l' :: 's' :: 'e' :: r2 => some (.bool false, r2)
        | _ => none
      else if c = '"' then
        (parseStrRun r.length r).map fun p => (.str ⟨p.1⟩, p.2)
      else if c = '[' then
        match skipWs r with
        | ']' :: r2 => some (.arr [], r2)
        | _ => parseItems fuel r []
      else if c = '\x7b' then
        match skipWs r with
        | '\x7d' :: r2 => some (.obj [], r2)
        | _ => parseFields fuel r []
      else parseNumber (c :: r)

/-- Parse the remaining elements of a nonempty JSON array. -/
def parseItems : ℕ → List Char → List Json → Option (Json × List Char)
  | 0, _, _ => none
  | fuel + 1, s, acc =>
    match parseVal fuel s with
    | none => none
    | some (j, r) =>
      match skipWs r with
      | ',' :: r2 => parseItems fuel r2 (acc ++ [j])
      | ']' :: r2 => some (.arr (acc ++ [j]), r2)
      | _ => none

/-- Parse the remaining members of a nonempty JSON object. -/
def parseFields : ℕ → List Char → List (String × Json) →
    Option (Json × List Char)
  | 0, _, _ => none
  | fuel + 1, s, acc =>
    match skipWs s with
    | '"' :: r =>
      match parseStrRun r.length r with
      | none => none
      | some (k, r1) =>
        match skipWs r1 with
        | ':' :: r2 =>
          match parseVal fuel r2 with
          | none => none
          | some (v, r3) =>
            match skipWs r3 with
            | ',' :: r4 => parseFields fuel r4 (acc ++ [(⟨k⟩, v)])
            | '\x7d' :: r4 => some (.obj (acc ++ [(⟨k⟩, v)]), r4)
            | _ => none
        | _ => none
    | _ => none

end

/-- A pair's second component is smaller than the pair. -/
theorem prodSnd_sizeOf_lt (p : String × Json) : sizeOf p.2 < 1 + sizeOf p := by
  cases p with
  | mk a b =>
    simp only [Prod.mk.sizeOf_spec]
    omega

mutual

/-- Serialize one JSON value at the given indentation column, following
`json.dump(..., indent=2)`. -/
def printJson : ℕ → Json → List Char
  | _, .null => ['n', 'u', 'l', 'l']
  | _, .bool true => ['t', 'r', 'u', 'e']
  | _, .bool false => ['f', 'a', 'l', 's', 'e']
  | _, .num m e => numRender m e
  | _, .str s => '"' :: (escapeStr s.data ++ ['"'])
  | _, .arr [] => ['[', ']']
  | ind, .arr (x :: xs) =>
    '[' :: (printItems ind x xs ++ '\n' :: (List.replicate ind ' ' ++ [']']))
  | _, .obj [] => ['\x7b', '\x7d']
  | ind, .obj (f :: fs) =>
    '\x7b' :: (printFields ind f fs ++ '\n' :: (List.replicate ind ' ' ++ ['\x7d']))
termination_by ind j => sizeOf j
decreasing_by
  all_goals simp_wf
  all_goals omega

/-- Serialize the elements of a nonempty array, one line each. -/
def printItems : ℕ → Json → List Json → List Char
  | ind, x, [] => '\n' :: (List.replicate (ind + 2) ' ' ++ printJson (ind + 2) x)
  | ind, x, y :: ys =>
    '\n' :: (List.replicate (ind + 2) ' ' ++ printJson (ind + 2) x) ++
      ',' :: printItems ind y ys
termination_by ind x xs => 1 + sizeOf x + sizeOf xs
decreasing_by
  all_goals simp_wf
  all_goals omega

/-- Serialize the members of a nonempty object, one line each, with
`": "` after the key. -/
def printFields : ℕ → String × Json → List (String × Json) → List Char
  | ind, f, [] =>
    '\n' :: (List.replicate (ind + 2) ' ' ++
      ('"' :: (escapeStr f.1.data ++ '"' :: ':' :: ' ' :: printJson (ind + 2) f.2)))
  | ind, f, g :: gs =>
    '\n' :: (List.replicate (ind + 2) ' ' ++
      ('"' :: (escapeStr f.1.data ++ '"' :: ':' :: ' ' :: printJson (ind + 2) f.2))) ++
      ',' :: printFields ind g gs
termination_by ind f fs => 1 + sizeOf f + sizeOf fs
decreasing_by
  all_goals simp_wf
  all_goals (try (have hf := prodSnd_sizeOf_lt f))
  all_goals omega

end

mutual

/-- The fuel `parseVal` needs on output of `printJson`. -/
def needFuel : Json → ℕ
  | .null => 1
  | .bool _ => 1
  | .num _ _ => 1
  | .str _ => 1
  | .arr [] => 1
  | .arr (x :: xs) => 1 + needItems x xs
  | .obj [] => 1
  | .obj (f :: fs) => 1 + needFields f fs
termination_by j => sizeOf j
decreasing_by
  all_goals simp_wf
  all_goals omega

/-- The fuel `parseItems` needs. -/
def needItems : Json → List Json → ℕ
  | x, [] => 1 + needFuel x
  | x, y :: ys => 1 + needFuel x + needItems y ys
termination_by x xs => 1 + sizeOf x + sizeOf xs
decreasing_by
  all_goals simp_wf
  all_goals omega

/-- The fuel `parseFields` needs. -/
def needFields : String × Json → List (String × Json) → ℕ
  | f, [] => 1 + needFuel f.2
  | f, g :: gs => 1 + needFuel f.2 + needFields g gs
termination_by f fs => 1 + sizeOf f + sizeOf fs
decreasing_by
  all_goals simp_wf
  all_goals (try (have hf := prodSnd_sizeOf_lt f))
  all_goals omega

end

/-- `json.dump(payload, f, indent=2)`: the serialized cache text. -/
def dumps (payload : Json) : String :=
  ⟨printJson 0 payload⟩

/-- `json.load(f)`: parse the cache text; `none` is the caught
`JSONDecodeError`. -/
def loads (s : String) : Option Json :=
  match parseVal (s.data.length + 1) s.data with
  | some (j, r) => if (skipWs r).isEmpty then some j else none
  | none => none

/-- `write_cache` from `space_weather.py`: overwrite the single cache
file slot with the serialized payload. -/
def write_cache (payload : Json) (cache_file : Option String) : Option String :=
  some (dumps payload)

/-- `load_cache` from `space_weather.py`: `none` when the file is missing
or its contents fail to parse. -/
def load_cache (cache_file : Option String) : Option Json :=
  match cache_file with
  | none => none
  | some s => loads s

/-! ### Digit and number lemmas -/

/-- The facts about a digit character the parser needs. -/
theorem digitChar_facts (d : ℕ) (hd : d < 10) :
    jsonWs (digitChar d) = false ∧ digitChar d ≠ 'n' ∧ digitChar d ≠ 't' ∧
    digitChar d ≠ 'f' ∧ digitChar d ≠ '"' ∧ digitChar d ≠ '[' ∧
    digitChar d ≠ '\x7b' ∧ digitChar d ≠ ']' ∧ digitChar d ≠ '\x7d' ∧
    digitChar d ≠ '-' ∧ digitChar d ≠ '.' ∧ (digitChar d).isDigit = true ∧
    charDigit (digitChar d) = d := by
  interval_cases d <;> decide

/-- `natDigitsRun` with enough fuel: every character is a digit, the
result is nonempty, and folding recovers the value. -/
theorem natDigitsRun_spec :
    ∀ (fuel n : ℕ), n ≤ fuel →
      (∀ c ∈ natDigitsRun fuel n, ∃ d, d < 10 ∧ c = digitChar d) ∧
      natDigitsRun fuel n ≠ [] ∧
      ∀ a, (natDigitsRun fuel n).foldl (fun a c => a * 10 + charDigit c) a =
        a * 10 ^ (natDigitsRun fuel n).length + n := by
  intro fuel
  induction fuel with
  | zero =>
    intro n hn
    obtain rfl : n = 0 := by omega
    refine ⟨?_, by simp [natDigitsRun], ?_⟩
    · intro c hc
      simp only [natDigitsRun, List.mem_singleton] at hc
      exact ⟨0, by omega, hc⟩
    · intro a
      simp [natDigitsRun, digitsVal, (digitChar_facts 0 (by omega)).2.2.2.2.2.2.2.2.2.2.2.2]
  | succ fuel ih =>
    intro n hn
    by_cases h10 : n < 10
    · refine ⟨?_, by simp [natDigitsRun, h10], ?_⟩
      · intro c hc
        simp only [natDigitsRun, h10, if_true, List.mem_singleton] at hc
        exact ⟨n, h10, hc⟩
      · intro a
        simp [natDigitsRun, h10, (digitChar_facts n h10).2.2.2.2.2.2.2.2.2.2.2.2]
    · have hdiv : n / 10 ≤ fuel := by
        have : n / 10 < n := Nat.div_lt_self (by omega) (by omega)
        omega
      obtain ⟨hchars, hne, hfold⟩ := ih (n / 10) hdiv
      have hmod : n % 10 < 10 := Nat.mod_lt _ (by omega)
      refine ⟨?_, ?_, ?_⟩
      · intro c hc
        simp only [natDigitsRun, h10, if_false, List.mem_append,
          List.mem_singleton] at hc
        rcases hc with hc | rfl
        · exact hchars c hc
        · exact ⟨n % 10, hmod, rfl⟩
      · simp [natDigitsRun, h10]
      · intro a
        simp only [natDigitsRun, h10, if_false, List.foldl_append,
          List.length_append, List.length_cons, List.length_nil, List.foldl_cons,
          List.foldl_nil, hfold]
        rw [(digitChar_facts (n % 10) hmod).2.2.2.2.2.2.2.2.2.2.2.2]
        calc (a * 10 ^ (natDigitsRun fuel (n / 10)).length + n / 10) * 10 + n % 10
            = a * (10 ^ (natDigitsRun fuel (n / 10)).length * 10) +
              (10 * (n / 10) + n % 10) := by ring
          _ = a * 10 ^ ((natDigitsRun fuel (n / 10)).length + 0 + 1) + n := by
              rw [Nat.div_add_mod, pow_succ]

/-- Every character of `natDigits n` is a digit character. -/
theorem natDigits_chars (n : ℕ) :
    ∀ c ∈ natDigits n, ∃ d, d < 10 ∧ c = digitChar d :=
  (natDigitsRun_spec n n le_rfl).1

/-- `natDigits` is never empty. -/
theorem natDigits_ne_nil (n : ℕ) : natDigits n ≠ [] :=
  (natDigitsRun_spec n n le_rfl).2.1

/-- The digits of `n` evaluate back to `n`. -/
theorem digitsVal_natDigits (n : ℕ) : digitsVal (natDigits n) = n := by
  have := ((natDigitsRun_spec n n le_rfl).2.2) 0
  simpa [digitsVal, natDigits] using this

/-- Leading zeros do not change a digit string's value. -/
theorem digitsVal_replicate_zero (k : ℕ) (ds : List Char) :
    digitsVal (List.replicate k '0' ++ ds) = digitsVal ds := by
  induction k with
  | zero => simp
  | succ k ih =>
    simp only [List.replicate_succ, List.cons_append, digitsVal, List.foldl_cons]
    have hz : charDigit '0' = 0 := by decide
    simpa [digitsVal, hz] using ih

/-- `takeWhile`/`dropWhile` of a digit run followed by a non-digit. -/
theorem takeWhile_digit_run (ds rest : List Char)
    (hds : ∀ c ∈ ds, c.isDigit = true)
    (hrest : ∀ c, rest.head? = some c → c.isDigit = false) :
    (ds ++ rest).takeWhile Char.isDigit = ds ∧
    (ds ++ rest).dropWhile Char.isDigit = rest := by
  induction ds with
  | nil =>
    simp only [List.nil_append]
    cases rest with
    | nil => exact ⟨rfl, rfl⟩
    | cons c r =>
      have hc : c.isDigit = false := hrest c rfl
      exact ⟨List.takeWhile_cons_of_neg (by simp [hc]),
        List.dropWhile_cons_of_neg (by simp [hc])⟩
  | cons c cs ih =>
    have hc : c.isDigit = true := hds c (List.mem_cons_self c cs)
    have ihh := ih (fun x hx => hds x (List.mem_cons_of_mem c hx))
    simp only [List.cons_append, List.takeWhile_cons_of_pos hc,
      List.dropWhile_cons_of_pos hc, ihh.1, ihh.2, true_and]

/-- What may legally follow a serialized number: nothing, or a character
that is neither a digit nor a point. -/
def numDelim (rest : List Char) : Prop :=
  ∀ c, rest.head? = some c → (c.isDigit = false ∧ c ≠ '.')

/-- A digit character is a digit. -/
theorem digitChar_isDigit (d : ℕ) (hd : d < 10) : (digitChar d).isDigit = true :=
  (digitChar_facts d hd).2.2.2.2.2.2.2.2.2.2.2.1

/-- `charDigit` inverts `digitChar` below ten. -/
theorem charDigit_digitChar (d : ℕ) (hd : d < 10) : charDigit (digitChar d) = d :=
  (digitChar_facts d hd).2.2.2.2.2.2.2.2.2.2.2.2

/-- A list is not `isEmpty` when it is not `[]`. -/
theorem isEmpty_false_of_ne_nil {l : List α} (h : l ≠ []) : l.isEmpty = false := by
  cases hie : l.isEmpty
  · rfl
  · exact absurd (List.isEmpty_iff.mp hie) h

/-- The padded digit string of `numRenderNat` for a positive exponent. -/
def padDigits (n e : ℕ) : List Char :=
  List.replicate (e + 1 - (natDigits n).length) '0' ++ natDigits n

/-- Every character of `padDigits` is a digit character. -/
theorem padDigits_chars (n e : ℕ) :
    ∀ c ∈ padDigits n e, ∃ d, d < 10 ∧ c = digitChar d := by
  intro c hc
  rcases List.mem_append.mp hc with hc | hc
  · have : c = '0' := List.eq_of_mem_replicate hc
    exact ⟨0, by omega, by rw [this]; decide⟩
  · exact natDigits_chars n c hc

/-- `padDigits` has more digits than the exponent. -/
theorem padDigits_length (n e : ℕ) : e + 1 ≤ (padDigits n e).length := by
  have := natDigits_ne_nil n
  have hpos : 1 ≤ (natDigits n).length := by
    cases hL : natDigits n
    · exact absurd hL this
    · simp
  simp only [padDigits, List.length_append, List.length_replicate]
  omega

/-- `numRenderNat` with a positive exponent splits the padded digits at
the point. -/
theorem numRenderNat_pos (n e : ℕ) (he : e ≠ 0) :
    numRenderNat n e =
      (padDigits n e).take ((padDigits n e).length - e) ++
        '.' :: (padDigits n e).drop ((padDigits n e).length - e) := by
  simp only [numRenderNat, padDigits, he, if_false]

/-- Parsing an unsigned rendered number recovers mantissa and exponent. -/
theorem parseNumCore_round (n e : ℕ) (rest : List Char) (hrest : numDelim rest) :
    parseNumCore (numRenderNat n e ++ rest) = some ((n, e), rest) := by
  by_cases he : e = 0
  · subst he
    have hdigit : ∀ c ∈ natDigits n, c.isDigit = true := by
      intro c hc
      obtain ⟨d, hd, rfl⟩ := natDigits_chars n c hc
      exact digitChar_isDigit d hd
    have htd := takeWhile_digit_run (natDigits n) rest hdigit
      (fun c hc => (hrest c hc).1)
    have hie := isEmpty_false_of_ne_nil (natDigits_ne_nil n)
    have h1 : numRenderNat n 0 = natDigits n := by simp [numRenderNat]
    rw [h1]
    simp only [parseNumCore]
    rw [htd.1, htd.2, hie]
    simp only [Bool.false_eq_true, if_false]
    cases rest with
    | nil => simp [digitsVal_natDigits]
    | cons c r =>
      have hcd : c ≠ '.' := (hrest c rfl).2
      split
      · rename_i r2 heq
        rw [List.cons.injEq] at heq
        exact absurd heq.1 hcd
      · simp [digitsVal_natDigits]
  · have hptd : ∀ c ∈ (padDigits n e).take ((padDigits n e).length - e),
        c.isDigit = true := by
      intro c hc
      obtain ⟨d, hd, rfl⟩ := padDigits_chars n e c (List.take_subset _ _ hc)
      exact digitChar_isDigit d hd
    have hdtd : ∀ c ∈ (padDigits n e).drop ((padDigits n e).length - e),
        c.isDigit = true := by
      intro c hc
      obtain ⟨d, hd, rfl⟩ := padDigits_chars n e c (List.drop_subset _ _ hc)
      exact digitChar_isDigit d hd
    have hplen := padDigits_length n e
    have htake := takeWhile_digit_run
      ((padDigits n e).take ((padDigits n e).length - e))
      ('.' :: ((padDigits n e).drop ((padDigits n e).length - e) ++ rest))
      hptd (by intro c hc; injection hc with hc; rw [← hc]; decide)
    have hdrop := takeWhile_digit_run
      ((padDigits n e).drop ((padDigits n e).length - e)) rest
      hdtd (fun c hc => (hrest c hc).1)
    have htlen : ((padDigits n e).take ((padDigits n e).length - e)).length =
        (padDigits n e).length - e := by
      rw [List.length_take]
      omega
    have hdlen : ((padDigits n e).drop ((padDigits n e).length - e)).length = e := by
      rw [List.length_drop]
      omega
    have htne : ((padDigits n e).take ((padDigits n e).length - e)).isEmpty = false := by
      apply isEmpty_false_of_ne_nil
      intro hnil
      rw [hnil] at htlen
      simp only [List.length_nil] at htlen
      omega
    have hdne : ((padDigits n e).drop ((padDigits n e).length - e)).isEmpty = false := by
      apply isEmpty_false_of_ne_nil
      intro hnil
      rw [hnil] at hdlen
      simp only [List.length_nil] at hdlen
      omega
    rw [numRenderNat_pos n e he]
    rw [List.append_assoc, List.cons_append]
    simp only [parseNumCore]
    rw [htake.1, htake.2, htne]
    simp only [Bool.false_eq_true, if_false]
    rw [hdrop.1, hdrop.2, hdne]
    simp only [Bool.false_eq_true, if_false]
    rw [List.take_append_drop, hdlen]
    simp only [padDigits, digitsVal_replicate_zero, digitsVal_natDigits]

/-- The rendered unsigned number starts with a digit character. -/
theorem numRenderNat_head (n e : ℕ) :
    ∃ d t, d < 10 ∧ numRenderNat n e = digitChar d :: t := by
  by_cases he : e = 0
  · subst he
    cases hL : natDigits n with
    | nil => exact absurd hL (natDigits_ne_nil n)
    | cons c t =>
      obtain ⟨d, hd, rfl⟩ := natDigits_chars n c (by rw [hL]; exact List.mem_cons_self _ _)
      exact ⟨d, t, hd, by simp only [numRenderNat, if_pos rfl]; exact hL⟩
  · have hplen := padDigits_length n e
    cases hT : (padDigits n e).take ((padDigits n e).length - e) with
    | nil =>
      have := congrArg List.length hT
      rw [List.length_take] at this
      simp only [List.length_nil] at this
      omega
    | cons c t =>
      obtain ⟨d, hd, rfl⟩ := padDigits_chars n e c
        (List.take_subset _ _ (by rw [hT]; exact List.mem_cons_self _ _))
      refine ⟨d, t ++ '.' :: (padDigits n e).drop ((padDigits n e).length - e), hd, ?_⟩
      rw [numRenderNat_pos n e he, hT, List.cons_append]

/-- Parsing a rendered signed number recovers the value. -/
theorem parseNumber_round (m : ℤ) (e : ℕ) (rest : List Char) (hrest : numDelim rest) :
    parseNumber (numRender m e ++ rest) = some (.num m e, rest) := by
  by_cases hm : m < 0
  · have h1 : numRender m e ++ rest = '-' :: (numRenderNat m.natAbs e ++ rest) := by
      simp [numRender, hm]
    rw [h1]
    have h2 : parseNumber ('-' :: (numRenderNat m.natAbs e ++ rest)) =
        (parseNumCore (numRenderNat m.natAbs e ++ rest)).map
          fun p => (Json.num (-(p.1.1 : ℤ)) p.1.2, p.2) := by
      simp [parseNumber]
    rw [h2, parseNumCore_round _ _ _ hrest]
    have hneg : -((m.natAbs : ℤ)) = m := by omega
    have hmap : Option.map
        (fun p => ((Json.num (-(p.1.1 : ℤ)) p.1.2, p.2) : Json × List Char))
        (some (((m.natAbs, e), rest) : (ℕ × ℕ) × List Char)) =
        some (Json.num (-(m.natAbs : ℤ)) e, rest) := rfl
    rw [hmap, hneg]
  · have h1 : numRender m e ++ rest = numRenderNat m.natAbs e ++ rest := by
      simp [numRender, hm]
    rw [h1]
    obtain ⟨d, t, hd, heq⟩ := numRenderNat_head m.natAbs e
    rw [heq, List.cons_append]
    have h2 : parseNumber (digitChar d :: (t ++ rest)) =
        if digitChar d = '-' then
          (parseNumCore (t ++ rest)).map
            fun p => (Json.num (-(p.1.1 : ℤ)) p.1.2, p.2)
        else
          (parseNumCore (digitChar d :: (t ++ rest))).map
            fun p => (Json.num (p.1.1 : ℤ) p.1.2, p.2) := rfl
    rw [h2, if_neg ((digitChar_facts d hd).2.2.2.2.2.2.2.2.2.1)]
    rw [← List.cons_append, ← heq, parseNumCore_round _ _ _ hrest]
    have hpos : ((m.natAbs : ℤ)) = m := by omega
    have hmap : Option.map
        (fun p => ((Json.num (p.1.1 : ℤ) p.1.2, p.2) : Json × List Char))
        (some (((m.natAbs, e), rest) : (ℕ × ℕ) × List Char)) =
        some (Json.num ((m.natAbs : ℤ)) e, rest) := rfl
    rw [hmap, hpos]

/-! ### String and whitespace lemmas -/

/-- Escaping one character yields at least one character. -/
theorem escapeChar_length_pos (c : Char) : 1 ≤ (escapeChar c).length := by
  unfold escapeChar
  split_ifs <;> simp

/-- Escaping cannot shorten a string. -/
theorem escapeStr_length (s : List Char) : s.length ≤ (escapeStr s).length := by
  induction s with
  | nil => simp [escapeStr]
  | cons c cs ih =>
    have := escapeChar_length_pos c
    simp only [escapeStr, List.length_append, List.length_cons]
    omega

/-- `hexVal` inverts `hexChar` below sixteen. -/
theorem hexVal_hexChar (n : ℕ) (hn : n < 16) : hexVal (hexChar n) = n := by
  interval_cases n <;> decide

/-- Parsing an escaped string body recovers the characters and stops
after the closing quote. -/
theorem parseStrRun_escape :
    ∀ (s : List Char) (fuel : ℕ) (rest : List Char), s.length + 1 ≤ fuel →
      parseStrRun fuel (escapeStr s ++ '"' :: rest) = some (s, rest) := by
  intro s
  induction s with
  | nil =>
    intro fuel rest hf
    cases fuel with
    | zero =>
      simp only [List.length_nil] at hf
      omega
    | succ fuel => simp [escapeStr, parseStrRun]
  | cons c cs ih =>
    intro fuel rest hf
    cases fuel with
    | zero =>
      simp only [List.length_cons] at hf
      omega
    | succ fuel =>
      have hfs : cs.length + 1 ≤ fuel := by
        simp only [List.length_cons] at hf
        omega
      have ihh := ih fuel rest hfs
      by_cases h1 : c = '"'
      · subst h1
        have he : escapeStr ('"' :: cs) ++ '"' :: rest =
            '\\' :: '"' :: (escapeStr cs ++ '"' :: rest) := by
          simp [escapeStr, escapeChar]
        rw [he]
        rw [show parseStrRun (fuel + 1) ('\\' :: '"' :: (escapeStr cs ++ '"' :: rest)) =
          (parseStrRun fuel (escapeStr cs ++ '"' :: rest)).map
            (fun p => ('"' :: p.1, p.2)) from rfl, ihh]
        rfl
      · by_cases h2 : c = '\\'
        · subst h2
          have he : escapeStr ('\\' :: cs) ++ '"' :: rest =
              '\\' :: '\\' :: (escapeStr cs ++ '"' :: rest) := by
            simp [escapeStr, escapeChar]
          rw [he]
          rw [show parseStrRun (fuel + 1) ('\\' :: '\\' :: (escapeStr cs ++ '"' :: rest)) =
            (parseStrRun fuel (escapeStr cs ++ '"' :: rest)).map
              (fun p => ('\\' :: p.1, p.2)) from rfl, ihh]
          rfl
        · by_cases h3 : c = '\n'
          · subst h3
            have he : escapeStr ('\n' :: cs) ++ '"' :: rest =
                '\\' :: 'n' :: (escapeStr cs ++ '"' :: rest) := by
              simp [escapeStr, escapeChar]
            rw [he]
            rw [show parseStrRun (fuel + 1) ('\\' :: 'n' :: (escapeStr cs ++ '"' :: rest)) =
              (parseStrRun fuel (escapeStr cs ++ '"' :: rest)).map
                (fun p => ('\n' :: p.1, p.2)) from rfl, ihh]
            rfl
          · by_cases h4 : c = '\t'
            · subst h4
              have he : escapeStr ('\t' :: cs) ++ '"' :: rest =
                  '\\' :: 't' :: (escapeStr cs ++ '"' :: rest) := by
                simp [escapeStr, escapeChar]
              rw [he]
              rw [show parseStrRun (fuel + 1) ('\\' :: 't' :: (escapeStr cs ++ '"' :: rest)) =
                (parseStrRun fuel (escapeStr cs ++ '"' :: rest)).map
                  (fun p => ('\t' :: p.1, p.2)) from rfl, ihh]
              rfl
            · by_cases h5 : c = '\r'
              · subst h5
                have he : escapeStr ('\r' :: cs) ++ '"' :: rest =
                    '\\' :: 'r' :: (escapeStr cs ++ '"' :: rest) := by
                  simp [escapeStr, escapeChar]
                rw [he]
                rw [show parseStrRun (fuel + 1) ('\\' :: 'r' :: (escapeStr cs ++ '"' :: rest)) =
                  (parseStrRun fuel (escapeStr cs ++ '"' :: rest)).map
                    (fun p => ('\r' :: p.1, p.2)) from rfl, ihh]
                rfl
              · by_cases h6 : c = '\x08'
                · subst h6
                  have he : escapeStr ('\x08' :: cs) ++ '"' :: rest =
                      '\\' :: 'b' :: (escapeStr cs ++ '"' :: rest) := by
                    simp [escapeStr, escapeChar]
                  rw [he]
                  rw [show parseStrRun (fuel + 1) ('\\' :: 'b' :: (escapeStr cs ++ '"' :: rest)) =
                    (parseStrRun fuel (escapeStr cs ++ '"' :: rest)).map
                      (fun p => ('\x08' :: p.1, p.2)) from rfl, ihh]
                  rfl
                · by_cases h7 : c = '\x0c'
                  · subst h7
                    have he : escapeStr ('\x0c' :: cs) ++ '"' :: rest =
                        '\\' :: 'f' :: (escapeStr cs ++ '"' :: rest) := by
                      simp [escapeStr, escapeChar]
                    rw [he]
                    rw [show parseStrRun (fuel + 1)
                        ('\\' :: 'f' :: (escapeStr cs ++ '"' :: rest)) =
                      (parseStrRun fuel (escapeStr cs ++ '"' :: rest)).map
                        (fun p => ('\x0c' :: p.1, p.2)) from rfl, ihh]
                    rfl
                  · by_cases h8 : c.toNat < 32
                    · have he : escapeStr (c :: cs) ++ '"' :: rest =
                          '\\' :: 'u' :: '0' :: '0' :: hexChar (c.toNat / 16) ::
                            hexChar (c.toNat % 16) :: (escapeStr cs ++ '"' :: rest) := by
                        simp only [escapeStr, escapeChar, if_neg h1, if_neg h2,
                          if_neg h3, if_neg h4, if_neg h5, if_neg h6, if_neg h7,
                          if_pos h8, List.cons_append, List.nil_append,
                          List.append_assoc]
                      rw [he]
                      rw [show parseStrRun (fuel + 1)
                          ('\\' :: 'u' :: '0' :: '0' :: hexChar (c.toNat / 16) ::
                            hexChar (c.toNat % 16) :: (escapeStr cs ++ '"' :: rest)) =
                        (parseStrRun fuel (escapeStr cs ++ '"' :: rest)).map
                          (fun p => (Char.ofNat
                            (((hexVal '0' * 16 + hexVal '0') * 16 +
                              hexVal (hexChar (c.toNat / 16))) * 16 +
                              hexVal (hexChar (c.toNat % 16))) :: p.1, p.2)) from rfl,
                        ihh]
                      have hval : ((hexVal '0' * 16 + hexVal '0') * 16 +
                          hexVal (hexChar (c.toNat / 16))) * 16 +
                          hexVal (hexChar (c.toNat % 16)) = c.toNat := by
                        rw [hexVal_hexChar _ (by omega), hexVal_hexChar _ (by omega)]
                        have h0 : hexVal '0' = 0 := by decide
                        rw [h0]
                        omega
                      rw [Option.map_some']
                      rw [hval, Char.ofNat_toNat]
                    · have he : escapeStr (c :: cs) ++ '"' :: rest =
                          c :: (escapeStr cs ++ '"' :: rest) := by
                        simp only [escapeStr, escapeChar, if_neg h1, if_neg h2,
                          if_neg h3, if_neg h4, if_neg h5, if_neg h6, if_neg h7,
                          if_neg h8, List.cons_append, List.nil_append]
                      rw [he]
                      have hstep : parseStrRun (fuel + 1)
                          (c :: (escapeStr cs ++ '"' :: rest)) =
                          (parseStrRun fuel (escapeStr cs ++ '"' :: rest)).map
                            (fun p => (c :: p.1, p.2)) := by
                        simp only [parseStrRun]
                        rw [if_neg h1, if_neg h2]
                      rw [hstep, ihh]
                      rfl

/-- Skipping whitespace past a whitespace character. -/
theorem skipWs_cons_ws (c : Char) (t : List Char) (h : jsonWs c = true) :
    skipWs (c :: t) = skipWs t := by
  simp [skipWs, List.dropWhile_cons, h]

/-- Skipping whitespace stops at a non-whitespace character. -/
theorem skipWs_cons_neg (c : Char) (t : List Char) (h : jsonWs c = false) :
    skipWs (c :: t) = c :: t := by
  simp [skipWs, List.dropWhile_cons, h]

/-- Skipping whitespace past an indentation run. -/
theorem skipWs_replicate (k : ℕ) (t : List Char) :
    skipWs (List.replicate k ' ' ++ t) = skipWs t := by
  induction k with
  | zero => simp
  | succ k ih =>
    rw [List.replicate_succ, List.cons_append, skipWs_cons_ws _ _ (by decide), ih]

/-- A `String` is its character list. -/
theorem strMk_data (s : String) : String.mk s.data = s := by
  cases s
  rfl

/-- `parseVal` only looks at its input through `skipWs`. -/
theorem parseVal_congr (fuel : ℕ) (s t : List Char) (h : skipWs s = skipWs t) :
    parseVal fuel s = parseVal fuel t := by
  cases fuel with
  | zero => rfl
  | succ fuel => rw [parseVal, parseVal, h]

/-- The serialized form of a value begins with a character that is not
whitespace and closes no bracket. -/
theorem printJson_head (ind : ℕ) (j : Json) :
    ∃ c t, printJson ind j = c :: t ∧ jsonWs c = false ∧ c ≠ ']' ∧ c ≠ '\x7d' := by
  cases j with
  | null => exact ⟨'n', _, by rw [printJson], by decide, by decide, by decide⟩
  | bool b =>
    cases b with
    | true => exact ⟨'t', _, by rw [printJson], by decide, by decide, by decide⟩
    | false => exact ⟨'f', _, by rw [printJson], by decide, by decide, by decide⟩
  | str s => exact ⟨'"', _, by rw [printJson], by decide, by decide, by decide⟩
  | num m e =>
    by_cases hm : m < 0
    · refine ⟨'-', numRenderNat m.natAbs e, ?_, by decide, by decide, by decide⟩
      rw [printJson]
      simp [numRender, hm]
    · obtain ⟨d, t, hd, heq⟩ := numRenderNat_head m.natAbs e
      refine ⟨digitChar d, t, ?_, (digitChar_facts d hd).1,
        (digitChar_facts d hd).2.2.2.2.2.2.2.1, (digitChar_facts d hd).2.2.2.2.2.2.2.2.1⟩
      rw [printJson]
      simp [numRender, hm, heq]
  | arr xs =>
    cases xs with
    | nil => exact ⟨'[', _, by rw [printJson], by decide, by decide, by decide⟩
    | cons x xs => exact ⟨'[', _, by rw [printJson], by decide, by decide, by decide⟩
  | obj fs =>
    cases fs with
    | nil => exact ⟨'\x7b', _, by rw [printJson], by decide, by decide, by decide⟩
    | cons f fs => exact ⟨'\x7b', _, by rw [printJson], by decide, by decide, by decide⟩

/-- Every value needs at least one unit of fuel. -/
theorem needFuel_pos (j : Json) : 1 ≤ needFuel j := by
  cases j with
  | null => simp [needFuel]
  | bool b => simp [needFuel]
  | num m e => simp [needFuel]
  | str s => simp [needFuel]
  | arr xs => cases xs <;> simp [needFuel]
  | obj fs => cases fs <;> simp [needFuel]

/-- `numDelim` for a cons from facts about its head. -/
theorem numDelim_cons (c : Char) (r : List Char) (h1 : c.isDigit = false)
    (h2 : c ≠ '.') : numDelim (c :: r) := by
  intro x hx
  injection hx with hx
  subst hx
  exact ⟨h1, h2⟩

/-- Every item list needs at least one unit of fuel. -/
theorem needItems_pos (x : Json) (xs : List Json) : 1 ≤ needItems x xs := by
  cases xs <;> simp [needItems] <;> omega

/-- Every field list needs at least one unit of fuel. -/
theorem needFields_pos (f : String × Json) (fs : List (String × Json)) :
    1 ≤ needFields f fs := by
  cases fs <;> simp [needFields] <;> omega

/-- `parseVal` on a `null` literal. -/
theorem parseVal_step_null (fuel : ℕ) (rest : List Char) :
    parseVal (fuel + 1) ('n' :: 'u' :: 'l' :: 'l' :: rest) = some (.null, rest) := by
  rw [parseVal, skipWs_cons_neg _ _ (by decide)]
  rfl

/-- `parseVal` on a `true` literal. -/
theorem parseVal_step_true (fuel : ℕ) (rest : List Char) :
    parseVal (fuel + 1) ('t' :: 'r' :: 'u' :: 'e' :: rest) =
      some (.bool true, rest) := by
  rw [parseVal, skipWs_cons_neg _ _ (by decide)]
  rfl

/-- `parseVal` on a `false` literal. -/
theorem parseVal_step_false (fuel : ℕ) (rest : List Char) :
    parseVal (fuel + 1) ('f' :: 'a' :: 'l' :: 's' :: 'e' :: rest) =
      some (.bool false, rest) := by
  rw [parseVal, skipWs_cons_neg _ _ (by decide)]
  rfl

/-- `parseVal` hands a quote to the string parser. -/
theorem parseVal_step_str (fuel : ℕ) (r : List Char) :
    parseVal (fuel + 1) ('"' :: r) =
      (parseStrRun r.length r).map fun p => (.str ⟨p.1⟩, p.2) := by
  rw [parseVal, skipWs_cons_neg _ _ (by decide)]
  rfl

/-- `parseVal` hands a number head to the number parser. -/
theorem parseVal_step_num (fuel : ℕ) (c : Char) (r : List Char)
    (hws : jsonWs c = false) (hn : c ≠ 'n') (ht : c ≠ 't') (hf : c ≠ 'f')
    (hq : c ≠ '"') (hbk : c ≠ '[') (hbr : c ≠ '\x7b') :
    parseVal (fuel + 1) (c :: r) = parseNumber (c :: r) := by
  rw [parseVal, skipWs_cons_neg _ _ hws]
  simp only [if_neg hn, if_neg ht, if_neg hf, if_neg hq, if_neg hbk, if_neg hbr]

/-- `parseVal` on an opening bracket. -/
theorem parseVal_step_arr (fuel : ℕ) (r : List Char) :
    parseVal (fuel + 1) ('[' :: r) =
      (match skipWs r with
       | ']' :: r2 => some (.arr [], r2)
       | _ => parseItems fuel r []) := by
  rw [parseVal, skipWs_cons_neg _ _ (by decide)]
  rfl

/-- `parseVal` on an opening brace. -/
theorem parseVal_step_obj (fuel : ℕ) (r : List Char) :
    parseVal (fuel + 1) ('\x7b' :: r) =
      (match skipWs r with
       | '\x7d' :: r2 => some (.obj [], r2)
       | _ => parseFields fuel r []) := by
  rw [parseVal, skipWs_cons_neg _ _ (by decide)]
  rfl

/-- The rendered signed number starts with a character that routes
`parseVal` to the number parser. -/
theorem numRender_head (m : ℤ) (e : ℕ) :
    ∃ c t, numRender m e = c :: t ∧ jsonWs c = false ∧ c ≠ 'n' ∧ c ≠ 't' ∧
      c ≠ 'f' ∧ c ≠ '"' ∧ c ≠ '[' ∧ c ≠ '\x7b' := by
  by_cases hm : m < 0
  · refine ⟨'-', numRenderNat m.natAbs e, ?_, by decide, by decide, by decide,
      by decide, by decide, by decide, by decide⟩
    simp [numRender, hm]
  · obtain ⟨d, t, hd, heq⟩ := numRenderNat_head m.natAbs e
    have hfacts := digitChar_facts d hd
    exact ⟨digitChar d, t, by simp [numRender, hm, heq], hfacts.1, hfacts.2.1,
      hfacts.2.2.1, hfacts.2.2.2.1, hfacts.2.2.2.2.1, hfacts.2.2.2.2.2.1,
      hfacts.2.2.2.2.2.2.1⟩

/-- Skipping whitespace at the start of a printed item list reaches the
first element's serialized form. -/
theorem skipWs_printItems (ind : ℕ) (x : Json) (xs : List Json) (tl : List Char) :
    ∃ t2, skipWs (printItems ind x xs ++ tl) =
      skipWs (printJson (ind + 2) x ++ t2) := by
  cases xs with
  | nil =>
    refine ⟨tl, ?_⟩
    rw [printItems]
    simp only [List.cons_append, List.append_assoc]
    rw [skipWs_cons_ws _ _ (by decide), skipWs_replicate]
  | cons y ys =>
    refine ⟨',' :: (printItems ind y ys ++ tl), ?_⟩
    rw [printItems]
    simp only [List.cons_append, List.append_assoc]
    rw [skipWs_cons_ws _ _ (by decide), skipWs_replicate]

/-- Skipping whitespace at the start of a printed field list reaches the
first key's opening quote. -/
theorem skipWs_printFields_head (ind : ℕ) (f : String × Json)
    (fs : List (String × Json)) (tl : List Char) :
    ∃ t2, skipWs (printFields ind f fs ++ tl) = '"' :: t2 := by
  cases fs with
  | nil =>
    apply Exists.intro
    rw [printFields]
    simp only [List.cons_append, List.append_assoc]
    rw [skipWs_cons_ws _ _ (by decide), skipWs_replicate,
      skipWs_cons_neg _ _ (by decide)]
  | cons g gs =>
    apply Exists.intro
    rw [printFields]
    simp only [List.cons_append, List.append_assoc]
    rw [skipWs_cons_ws _ _ (by decide), skipWs_replicate,
      skipWs_cons_neg _ _ (by decide)]

set_option maxHeartbeats 1000000 in
theorem parse_print_round (fuel : ℕ) :
    (∀ (j : Json) (ind : ℕ) (rest : List Char), needFuel j ≤ fuel → numDelim rest →
      parseVal fuel (printJson ind j ++ rest) = some (j, rest)) ∧
    (∀ (ind : ℕ) (x : Json) (xs : List Json) (acc : List Json) (rest : List Char),
      needItems x xs ≤ fuel →
      parseItems fuel (printItems ind x xs ++
        '\n' :: (List.replicate ind ' ' ++ ']' :: rest)) acc =
        some (.arr (acc ++ x :: xs), rest)) ∧
    (∀ (ind : ℕ) (f : String × Json) (fs : List (String × Json))
        (acc : List (String × Json)) (rest : List Char),
      needFields f fs ≤ fuel →
      parseFields fuel (printFields ind f fs ++
        '\n' :: (List.replicate ind ' ' ++ '\x7d' :: rest)) acc =
        some (.obj (acc ++ f :: fs), rest)) := by
  induction fuel with
  | zero =>
    refine ⟨?_, ?_, ?_⟩
    · intro j ind rest hneed hrest
      exact absurd hneed (by have := needFuel_pos j; omega)
    · intro ind x xs acc rest hneed
      exact absurd hneed (by have := needItems_pos x xs; omega)
    · intro ind f fs acc rest hneed
      exact absurd hneed (by have := needFields_pos f fs; omega)
  | succ fuel ih =>
    obtain ⟨ih1, ih2, ih3⟩ := ih
    refine ⟨?_, ?_, ?_⟩
    · intro j ind rest hneed hrest
      cases j with
      | null =>
        rw [printJson]
        exact parseVal_step_null fuel rest
      | bool b =>
        cases b with
        | true =>
          rw [printJson]
          exact parseVal_step_true fuel rest
        | false =>
          rw [printJson]
          exact parseVal_step_false fuel rest
      | num m e =>
        rw [printJson]
        obtain ⟨c, t, hct, hws, hn, ht, hf, hq, hbk, hbr⟩ := numRender_head m e
        rw [hct, List.cons_append,
          parseVal_step_num fuel c _ hws hn ht hf hq hbk hbr,
          ← List.cons_append, ← hct]
        exact parseNumber_round m e rest hrest
      | str s =>
        rw [printJson]
        have hip : ('"' :: (escapeStr s.data ++ ['"'])) ++ rest =
            '"' :: (escapeStr s.data ++ '"' :: rest) := by
          simp [List.cons_append, List.append_assoc]
        have hlen : s.data.length + 1 ≤ (escapeStr s.data ++ '"' :: rest).length := by
          have := escapeStr_length s.data
          simp only [List.length_append, List.length_cons]
          omega
        rw [hip, parseVal_step_str,
          parseStrRun_escape s.data _ rest hlen]
        simp [strMk_data]
      | arr xs =>
        cases xs with
        | nil =>
          rw [printJson]
          rw [show (['[', ']'] : List Char) ++ rest = '[' :: ']' :: rest from rfl,
            parseVal_step_arr, skipWs_cons_neg _ _ (by decide)]
          rfl
        | cons x xs =>
          rw [printJson]
          have hip : ('[' :: (printItems ind x xs ++
              '\n' :: (List.replicate ind ' ' ++ [']']))) ++ rest =
              '[' :: (printItems ind x xs ++
                ('\n' :: (List.replicate ind ' ' ++ (']' :: rest)))) := by
            simp [List.cons_append, List.append_assoc]
          rw [hip, parseVal_step_arr]
          obtain ⟨t2, hsk⟩ := skipWs_printItems ind x xs
            ('\n' :: (List.replicate ind ' ' ++ (']' :: rest)))
          obtain ⟨c, t, hct, hws, hrb, hcb⟩ := printJson_head (ind + 2) x
          rw [hsk, hct, List.cons_append, skipWs_cons_neg _ _ hws]
          split
          · rename_i r2 heq
            rw [List.cons.injEq] at heq
            exact absurd heq.1 hrb
          · have hneed2 : needItems x xs ≤ fuel := by
              simp only [needFuel] at hneed
              omega
            have := ih2 ind x xs [] rest hneed2
            simpa using this
      | obj fs =>
        cases fs with
        | nil =>
          rw [printJson]
          rw [show (['\x7b', '\x7d'] : List Char) ++ rest =
              '\x7b' :: '\x7d' :: rest from rfl,
            parseVal_step_obj, skipWs_cons_neg _ _ (by decide)]
          rfl
        | cons f fs =>
          rw [printJson]
          have hip : ('\x7b' :: (printFields ind f fs ++
              '\n' :: (List.replicate ind ' ' ++ ['\x7d']))) ++ rest =
              '\x7b' :: (printFields ind f fs ++
                ('\n' :: (List.replicate ind ' ' ++ ('\x7d' :: rest)))) := by
            simp [List.cons_append, List.append_assoc]
          rw [hip, parseVal_step_obj]
          obtain ⟨t2, hsk⟩ := skipWs_printFields_head ind f fs
            ('\n' :: (List.replicate ind ' ' ++ ('\x7d' :: rest)))
          rw [hsk]
          split
          · rename_i r2 heq
            rw [List.cons.injEq] at heq
            exact absurd heq.1 (by decide)
          · have hneed2 : needFields f fs ≤ fuel := by
              simp only [needFuel] at hneed
              omega
            have := ih3 ind f fs [] rest hneed2
            simpa using this
    · intro ind x xs acc rest hneed
      cases xs with
      | nil =>
        rw [printItems, parseItems]
        have hip : ('\n' :: (List.replicate (ind + 2) ' ' ++ printJson (ind + 2) x)) ++
            ('\n' :: (List.replicate ind ' ' ++ ']' :: rest)) =
            '\n' :: (List.replicate (ind + 2) ' ' ++ (printJson (ind + 2) x ++
              ('\n' :: (List.replicate ind ' ' ++ ']' :: rest)))) := by
          simp [List.cons_append, List.append_assoc]
        rw [hip]
        have hneed1 : needFuel x ≤ fuel := by
          simp only [needItems] at hneed
          omega
        have hval : parseVal fuel ('\n' :: (List.replicate (ind + 2) ' ' ++
            (printJson (ind + 2) x ++
              ('\n' :: (List.replicate ind ' ' ++ ']' :: rest))))) =
            some (x, '\n' :: (List.replicate ind ' ' ++ ']' :: rest)) := by
          have h1 : parseVal fuel ('\n' :: (List.replicate (ind + 2) ' ' ++
              (printJson (ind + 2) x ++
                ('\n' :: (List.replicate ind ' ' ++ ']' :: rest))))) =
              parseVal fuel (printJson (ind + 2) x ++
                ('\n' :: (List.replicate ind ' ' ++ ']' :: rest))) :=
            parseVal_congr fuel _ _
              (by rw [skipWs_cons_ws _ _ (by decide), skipWs_replicate])
          rw [h1]
          exact ih1 x (ind + 2) _ hneed1 (numDelim_cons '\n' _ (by decide) (by decide))
        have hskT : skipWs ('\n' :: (List.replicate ind ' ' ++ ']' :: rest)) =
            ']' :: rest := by
          rw [skipWs_cons_ws _ _ (by decide), skipWs_replicate,
            skipWs_cons_neg _ _ (by decide)]
        simp only [hval, hskT]
      | cons y ys =>
        rw [printItems, parseItems]
        have hip : (('\n' :: (List.replicate (ind + 2) ' ' ++ printJson (ind + 2) x)) ++
            ',' :: printItems ind y ys) ++
            ('\n' :: (List.replicate ind ' ' ++ ']' :: rest)) =
            '\n' :: (List.replicate (ind + 2) ' ' ++ (printJson (ind + 2) x ++
              (',' :: (printItems ind y ys ++
                ('\n' :: (List.replicate ind ' ' ++ ']' :: rest)))))) := by
          simp [List.cons_append, List.append_assoc]
        rw [hip]
        have hneed1 : needFuel x ≤ fuel := by
          simp only [needItems] at hneed
          omega
        have hneed2 : needItems y ys ≤ fuel := by
          simp only [needItems] at hneed
          omega
        have hval : parseVal fuel ('\n' :: (List.replicate (ind + 2) ' ' ++
            (printJson (ind + 2) x ++ (',' :: (printItems ind y ys ++
              ('\n' :: (List.replicate ind ' ' ++ ']' :: rest))))))) =
            some (x, ',' :: (printItems ind y ys ++
              ('\n' :: (List.replicate ind ' ' ++ ']' :: rest)))) := by
          have h1 : parseVal fuel ('\n' :: (List.replicate (ind + 2) ' ' ++
              (printJson (ind + 2) x ++ (',' :: (printItems ind y ys ++
                ('\n' :: (List.replicate ind ' ' ++ ']' :: rest))))))) =
              parseVal fuel (printJson (ind + 2) x ++ (',' :: (printItems ind y ys ++
                ('\n' :: (List.replicate ind ' ' ++ ']' :: rest))))) :=
            parseVal_congr fuel _ _
              (by rw [skipWs_cons_ws _ _ (by decide), skipWs_replicate])
          rw [h1]
          exact ih1 x (ind + 2) _ hneed1 (numDelim_cons ',' _ (by decide) (by decide))
        have hsk2 : skipWs (',' :: (printItems ind y ys ++
            ('\n' :: (List.replicate ind ' ' ++ ']' :: rest)))) =
            ',' :: (printItems ind y ys ++
              ('\n' :: (List.replicate ind ' ' ++ ']' :: rest))) :=
          skipWs_cons_neg _ _ (by decide)
        have hrec := ih2 ind y ys (acc ++ [x]) rest hneed2
        simp only [hval, hsk2, hrec]
        simp [List.append_assoc]
    · intro ind f fs acc rest hneed
      cases fs with
      | nil =>
        rw [printFields, parseFields]
        have hip : ('\n' :: (List.replicate (ind + 2) ' ' ++
            ('"' :: (escapeStr f.1.data ++ '"' :: ':' :: ' ' ::
              printJson (ind + 2) f.2)))) ++
            ('\n' :: (List.replicate ind ' ' ++ '\x7d' :: rest)) =
            '\n' :: (List.replicate (ind + 2) ' ' ++
              ('"' :: (escapeStr f.1.data ++ '"' :: ':' :: ' ' ::
                (printJson (ind + 2) f.2 ++
                  ('\n' :: (List.replicate ind ' ' ++ '\x7d' :: rest)))))) := by
          simp [List.cons_append, List.append_assoc]
        rw [hip]
        have hskq : skipWs ('\n' :: (List.replicate (ind + 2) ' ' ++
            ('"' :: (escapeStr f.1.data ++ '"' :: ':' :: ' ' ::
              (printJson (ind + 2) f.2 ++
                ('\n' :: (List.replicate ind ' ' ++ '\x7d' :: rest))))))) =
            '"' :: (escapeStr f.1.data ++ '"' :: ':' :: ' ' ::
              (printJson (ind + 2) f.2 ++
                ('\n' :: (List.replicate ind ' ' ++ '\x7d' :: rest)))) := by
          rw [skipWs_cons_ws _ _ (by decide), skipWs_replicate,
            skipWs_cons_neg _ _ (by decide)]
        have hlen : f.1.data.length + 1 ≤ (escapeStr f.1.data ++ '"' :: ':' :: ' ' ::
            (printJson (ind + 2) f.2 ++
              ('\n' :: (List.replicate ind ' ' ++ '\x7d' :: rest)))).length := by
          have := escapeStr_length f.1.data
          simp only [List.length_append, List.length_cons]
          omega
        have hstr : parseStrRun (escapeStr f.1.data ++ '"' :: ':' :: ' ' ::
            (printJson (ind + 2) f.2 ++
              ('\n' :: (List.replicate ind ' ' ++ '\x7d' :: rest)))).length
            (escapeStr f.1.data ++ '"' :: ':' :: ' ' ::
              (printJson (ind + 2) f.2 ++
                ('\n' :: (List.replicate ind ' ' ++ '\x7d' :: rest)))) =
            some (f.1.data, ':' :: ' ' :: (printJson (ind + 2) f.2 ++
              ('\n' :: (List.replicate ind ' ' ++ '\x7d' :: rest)))) :=
          parseStrRun_escape f.1.data _ _ hlen
        have hneed1 : needFuel f.2 ≤ fuel := by
          simp only [needFields] at hneed
          omega
        have hsk3 : skipWs (':' :: ' ' :: (printJson (ind + 2) f.2 ++
            ('\n' :: (List.replicate ind ' ' ++ '\x7d' :: rest)))) =
            ':' :: ' ' :: (printJson (ind + 2) f.2 ++
              ('\n' :: (List.replicate ind ' ' ++ '\x7d' :: rest))) :=
          skipWs_cons_neg _ _ (by decide)
        have hval : parseVal fuel (' ' :: (printJson (ind + 2) f.2 ++
            ('\n' :: (List.replicate ind ' ' ++ '\x7d' :: rest)))) =
            some (f.2, '\n' :: (List.replicate ind ' ' ++ '\x7d' :: rest)) := by
          have h1 : parseVal fuel (' ' :: (printJson (ind + 2) f.2 ++
              ('\n' :: (List.replicate ind ' ' ++ '\x7d' :: rest)))) =
              parseVal fuel (printJson (ind + 2) f.2 ++
                ('\n' :: (List.replicate ind ' ' ++ '\x7d' :: rest))) :=
            parseVal_congr fuel _ _ (skipWs_cons_ws _ _ (by decide))
          rw [h1]
          exact ih1 f.2 (ind + 2) _ hneed1 (numDelim_cons '\n' _ (by decide) (by decide))
        have hskT : skipWs ('\n' :: (List.replicate ind ' ' ++ '\x7d' :: rest)) =
            '\x7d' :: rest := by
          rw [skipWs_cons_ws _ _ (by decide), skipWs_replicate,
            skipWs_cons_neg _ _ (by decide)]
        simp only [hskq, hstr, hsk3, hval, hskT, strMk_data, Prod.mk.eta]
      | cons g gs =>
        rw [printFields, parseFields]
        have hip : (('\n' :: (List.replicate (ind + 2) ' ' ++
            ('"' :: (escapeStr f.1.data ++ '"' :: ':' :: ' ' ::
              printJson (ind + 2) f.2)))) ++ ',' :: printFields ind g gs) ++
            ('\n' :: (List.replicate ind ' ' ++ '\x7d' :: rest)) =
            '\n' :: (List.replicate (ind + 2) ' ' ++
              ('"' :: (escapeStr f.1.data ++ '"' :: ':' :: ' ' ::
                (printJson (ind + 2) f.2 ++ (',' :: (printFields ind g gs ++
                  ('\n' :: (List.replicate ind ' ' ++ '\x7d' :: rest)))))))) := by
          simp [List.cons_append, List.append_assoc]
        rw [hip]
        have hskq : skipWs ('\n' :: (List.replicate (ind + 2) ' ' ++
            ('"' :: (escapeStr f.1.data ++ '"' :: ':' :: ' ' ::
              (printJson (ind + 2) f.2 ++ (',' :: (printFields ind g gs ++
                ('\n' :: (List.replicate ind ' ' ++ '\x7d' :: rest))))))))) =
            '"' :: (escapeStr f.1.data ++ '"' :: ':' :: ' ' ::
              (printJson (ind + 2) f.2 ++ (',' :: (printFields ind g gs ++
                ('\n' :: (List.replicate ind ' ' ++ '\x7d' :: rest)))))) := by
          rw [skipWs_cons_ws _ _ (by decide), skipWs_replicate,
            skipWs_cons_neg _ _ (by decide)]
        have hlen : f.1.data.length + 1 ≤ (escapeStr f.1.data ++ '"' :: ':' :: ' ' ::
            (printJson (ind + 2) f.2 ++ (',' :: (printFields ind g gs ++
              ('\n' :: (List.replicate ind ' ' ++ '\x7d' :: rest)))))).length := by
          have := escapeStr_length f.1.data
          simp only [List.length_append, List.length_cons]
          omega
        have hstr : parseStrRun (escapeStr f.1.data ++ '"' :: ':' :: ' ' ::
            (printJson (ind + 2) f.2 ++ (',' :: (printFields ind g gs ++
              ('\n' :: (List.replicate ind ' ' ++ '\x7d' :: rest)))))).length
            (escapeStr f.1.data ++ '"' :: ':' :: ' ' ::
              (printJson (ind + 2) f.2 ++ (',' :: (printFields ind g gs ++
                ('\n' :: (List.replicate ind ' ' ++ '\x7d' :: rest)))))) =
            some (f.1.data, ':' :: ' ' :: (printJson (ind + 2) f.2 ++
              (',' :: (printFields ind g gs ++
                ('\n' :: (List.replicate ind ' ' ++ '\x7d' :: rest)))))) :=
          parseStrRun_escape f.1.data _ _ hlen
        have hneed1 : needFuel f.2 ≤ fuel := by
          simp only [needFields] at hneed
          omega
        have hneed2 : needFields g gs ≤ fuel := by
          simp only [needFields] at hneed
          omega
        have hsk3 : skipWs (':' :: ' ' :: (printJson (ind + 2) f.2 ++
            (',' :: (printFields ind g gs ++
              ('\n' :: (List.replicate ind ' ' ++ '\x7d' :: rest)))))) =
            ':' :: ' ' :: (printJson (ind + 2) f.2 ++
              (',' :: (printFields ind g gs ++
                ('\n' :: (List.replicate ind ' ' ++ '\x7d' :: rest))))) :=
          skipWs_cons_neg _ _ (by decide)
        have hval : parseVal fuel (' ' :: (printJson (ind + 2) f.2 ++
            (',' :: (printFields ind g gs ++
              ('\n' :: (List.replicate ind ' ' ++ '\x7d' :: rest)))))) =
            some (f.2, ',' :: (printFields ind g gs ++
              ('\n' :: (List.replicate ind ' ' ++ '\x7d' :: rest)))) := by
          have h1 : parseVal fuel (' ' :: (printJson (ind + 2) f.2 ++
              (',' :: (printFields ind g gs ++
                ('\n' :: (List.replicate ind ' ' ++ '\x7d' :: rest)))))) =
              parseVal fuel (printJson (ind + 2) f.2 ++
                (',' :: (printFields ind g gs ++
                  ('\n' :: (List.replicate ind ' ' ++ '\x7d' :: rest))))) :=
            parseVal_congr fuel _ _ (skipWs_cons_ws _ _ (by decide))
          rw [h1]
          exact ih1 f.2 (ind + 2) _ hneed1 (numDelim_cons ',' _ (by decide) (by decide))
        have hskc : skipWs (',' :: (printFields ind g gs ++
            ('\n' :: (List.replicate ind ' ' ++ '\x7d' :: rest)))) =
            ',' :: (printFields ind g gs ++
              ('\n' :: (List.replicate ind ' ' ++ '\x7d' :: rest))) :=
          skipWs_cons_neg _ _ (by decide)
        have hrec := ih3 ind g gs (acc ++ [(String.mk f.1.data, f.2)]) rest hneed2
        simp only [hskq, hstr, hsk3, hval, hskc, hrec]
        simp [strMk_data, List.append_assoc]

/-- Every JSON value has positive size. -/
theorem json_sizeOf_pos (j : Json) : 1 ≤ sizeOf j := by
  cases j <;> simp <;> omega

/-- The serialized form is long enough to supply the parser's fuel. -/
theorem need_le_len (n : ℕ) :
    (∀ (ind : ℕ) (j : Json), sizeOf j ≤ n → needFuel j ≤ (printJson ind j).length) ∧
    (∀ (ind : ℕ) (x : Json) (xs : List Json), sizeOf x + sizeOf xs ≤ n →
      needItems x xs ≤ (printItems ind x xs).length) ∧
    (∀ (ind : ℕ) (f : String × Json) (fs : List (String × Json)),
      sizeOf f + sizeOf fs ≤ n →
      needFields f fs ≤ (printFields ind f fs).length) := by
  induction n with
  | zero =>
    refine ⟨?_, ?_, ?_⟩
    · intro ind j hsz
      exact absurd hsz (by have := json_sizeOf_pos j; omega)
    · intro ind x xs hsz
      exact absurd hsz (by have := json_sizeOf_pos x; omega)
    · intro ind f fs hsz
      obtain ⟨k, v⟩ := f
      exact absurd hsz (by simp only [Prod.mk.sizeOf_spec]; omega)
  | succ n ihn =>
    obtain ⟨p1, p2, p3⟩ := ihn
    refine ⟨?_, ?_, ?_⟩
    · intro ind j hsz
      cases j with
      | null => simp [printJson, needFuel]
      | bool b => cases b <;> simp [printJson, needFuel]
      | num m e =>
        obtain ⟨c, t, hct, _⟩ := numRender_head m e
        rw [printJson, hct]
        simp [needFuel]
      | str s => simp [printJson, needFuel]
      | arr xs =>
        cases xs with
        | nil => simp [printJson, needFuel]
        | cons x xs =>
          have hsub : sizeOf x + sizeOf xs ≤ n := by
            simp only [Json.arr.sizeOf_spec, List.cons.sizeOf_spec] at hsz
            omega
          have := p2 ind x xs hsub
          simp only [printJson, needFuel, List.length_cons, List.length_append,
            List.length_replicate]
          omega
      | obj fs =>
        cases fs with
        | nil => simp [printJson, needFuel]
        | cons f fs =>
          have hsub : sizeOf f + sizeOf fs ≤ n := by
            simp only [Json.obj.sizeOf_spec, List.cons.sizeOf_spec] at hsz
            omega
          have := p3 ind f fs hsub
          simp only [printJson, needFuel, List.length_cons, List.length_append,
            List.length_replicate]
          omega
    · intro ind x xs hsz
      cases xs with
      | nil =>
        have hx : sizeOf x ≤ n := by
          simp only [List.nil.sizeOf_spec] at hsz
          omega
        have := p1 (ind + 2) x hx
        simp only [printItems, needItems, List.length_cons, List.length_append,
          List.length_replicate]
        omega
      | cons y ys =>
        have hx : sizeOf x ≤ n := by
          simp only [List.cons.sizeOf_spec] at hsz
          have := json_sizeOf_pos y
          omega
        have hyy : sizeOf y + sizeOf ys ≤ n := by
          simp only [List.cons.sizeOf_spec] at hsz
          have := json_sizeOf_pos x
          omega
        have h1 := p1 (ind + 2) x hx
        have h2 := p2 ind y ys hyy
        simp only [printItems, needItems, List.length_cons, List.length_append,
          List.length_replicate]
        omega
    · intro ind f fs hsz
      obtain ⟨k, v⟩ := f
      cases fs with
      | nil =>
        have hv : sizeOf v ≤ n := by
          simp only [Prod.mk.sizeOf_spec, List.nil.sizeOf_spec] at hsz
          omega
        have := p1 (ind + 2) v hv
        simp only [printFields, needFields, List.length_cons, List.length_append,
          List.length_replicate]
        omega
      | cons g gs =>
        have hv : sizeOf v ≤ n := by
          simp only [Prod.mk.sizeOf_spec, List.cons.sizeOf_spec] at hsz
          omega
        have hgg : sizeOf g + sizeOf gs ≤ n := by
          simp only [Prod.mk.sizeOf_spec, List.cons.sizeOf_spec] at hsz
          omega
        have h1 := p1 (ind + 2) v hv
        have h2 := p3 ind g gs hgg
        simp only [printFields, needFields, List.length_cons, List.length_append,
          List.length_replicate]
        omega

/-- C9: for every payload in the WeatherPayload wire schema, writing the
cache with `write_cache` (`json.dump(payload, f, indent=2)`) and reading
it back with `load_cache` (`json.load`) yields an equal structure — the
cache serialization round trip is lossless, whatever the previous state
of the cache file slot. -/
theorem claim_C9_cache_roundtrip (payload : Json) (cache_file : Option String) :
    load_cache (write_cache payload cache_file) = some payload := by
  have hneed : needFuel payload ≤ (printJson 0 payload).length + 1 := by
    have h := (need_le_len (sizeOf payload)).1 0 payload le_rfl
    omega
  have hrt := (parse_print_round ((printJson 0 payload).length + 1)).1 payload 0 []
    hneed (by intro c hc; simp at hc)
  rw [List.append_nil] at hrt
  show loads (dumps payload) = some payload
  unfold loads dumps
  rw [show (String.mk (printJson 0 payload)).data = printJson 0 payload from rfl]
  rw [hrt]
  rfl
